import Mathlib

/-!
Shallow embedding of the critic networks in `src/utils/critics.py` (MAAC).

Conventions used throughout:

* A batched 2-D tensor of shape `(batch, d)` is a `Mat := List (List ℚ)`:
  one inner list per batch row.  All tensors produced by the embedded
  operations are rectangular (every row has the same length), mirroring
  real tensors.
* Real-valued scalars are modelled as rationals.  The two transcendental
  functions the source relies on, `exp` (inside `softmax`) and `sqrt`
  (inside `BatchNorm1d` and the attention scaling), are passed in as
  explicit function parameters `E S : ℚ → ℚ`; the properties proved about
  softmax only use positivity of `E` (`ExpPos`), which the real
  exponential satisfies.
* Fallible tensor operations (shape mismatches, out-of-range indexing,
  `torch.stack`/`torch.cat` on an empty sequence) return `Option`/`Except`:
  `none`/`.error` models the runtime error PyTorch or Python would raise.
* Learned parameters are supplied to the constructors through functions
  `W : ℕ → ℕ → ℕ → ℚ` (weight of layer `slot`, row `o`, column `i`) and
  `B : ℕ → ℕ → ℚ` (bias of layer `slot`, row `o`); the `slot` numbers
  merely give every created layer its own parameters, the way random
  initialization does in the source.
-/

abbrev Mat := List (List ℚ)

/-- Dot product of two equally long vectors (`zipWith` mirrors the
shape-checked matrix product; callers check lengths). -/
def dot (x y : List ℚ) : ℚ := (List.zipWith (· * ·) x y).sum

/-- `torch.nn.LeakyReLU` with the default negative slope `0.01`. -/
def lrelu (x : ℚ) : ℚ := if x < 0 then x / 100 else x

/-- `torch.nn.ReLU`. -/
def relu (x : ℚ) : ℚ := if x < 0 then 0 else x

/-- Softmax of a vector, parametrised by the exponential function `E`:
`softmaxL E l = [E x / (l.map E).sum | x ∈ l]`. -/
def softmaxL (E : ℚ → ℚ) (l : List ℚ) : List ℚ :=
  l.map (fun x => E x / (l.map E).sum)

/-- The hypothesis on the exponential surrogate that the softmax facts
need: the real `exp` is everywhere positive. -/
def ExpPos (E : ℚ → ℚ) : Prop := ∀ x, 0 < E x

/-- A stand-in for `exp` (resp. `sqrt`) used in concrete evaluations; the
evaluated facts are independent of the function values. -/
def oneFn : ℚ → ℚ := fun _ => 1

/-- `torch.cat((s, a), dim=1)`: horizontal concatenation of two batches. -/
def catPair (p : Mat × Mat) : Mat := List.zipWith (· ++ ·) p.1 p.2

/-- `torch.cat(ms, dim=1)` for a non-empty list of batches with equal row
counts (the row count of the first tensor is used). -/
def cat1 (ms : List Mat) : Mat :=
  match ms with
  | [] => []
  | m :: _ => (List.range m.length).map (fun r => (ms.map (fun mm => mm.getD r [])).flatten)

/-- `torch.cat(ms, dim=1)`, raising on an empty sequence of tensors. -/
def catM (ms : List Mat) : Option Mat :=
  match ms with
  | [] => none
  | _ :: _ => some (cat1 ms)

/-- Transpose of a rectangular matrix (column `j` becomes row `j`). -/
def transposeM (m : Mat) : Mat :=
  (List.range ((m.headD []).length)).map (fun j => m.map (fun r => r.getD j 0))

/-- Elementwise sum of two same-shape matrices. -/
def addMat (a b : Mat) : Mat := List.zipWith (List.zipWith (· + ·)) a b

/-- Shape equality of two matrices (same row count and row widths). -/
def sameShape (a b : Mat) : Bool := a.map List.length = b.map List.length

/-- `torch.stack(ms, dim=0).sum(0)`: fails on an empty sequence or on
mismatched shapes, otherwise sums elementwise. -/
def stackSum (ms : List Mat) : Option Mat :=
  match ms with
  | [] => none
  | m :: rest => if rest.all (fun m2 => sameShape m m2) then some (rest.foldl addMat m) else none

/-- Broadcast one dimension of a binary elementwise op (PyTorch rules for
2-D tensors: sizes must match or one of them must be 1). -/
def bcastDim (a b : ℕ) : Option ℕ :=
  if a = b then some a else if a = 1 then some b else if b = 1 then some a else none

/-- Elementwise binary operation with PyTorch broadcasting on 2-D tensors;
`none` models the shape-mismatch runtime error. -/
def bcastOp (f : ℚ → ℚ → ℚ) (m1 m2 : Mat) : Option Mat := do
  let r ← bcastDim m1.length m2.length
  let c ← bcastDim (m1.headD []).length (m2.headD []).length
  some ((List.range r).map (fun i =>
    (List.range c).map (fun j =>
      f ((m1.getD (if m1.length = 1 then 0 else i) []).getD
           (if (m1.headD []).length = 1 then 0 else j) 0)
        ((m2.getD (if m2.length = 1 then 0 else i) []).getD
           (if (m2.headD []).length = 1 then 0 else j) 0))))

/-- Broadcast elementwise product (`t1 * t2`). -/
def bcastMul (m1 m2 : Mat) : Option Mat := bcastOp (· * ·) m1 m2

/-- Broadcast elementwise sum (`t1 + t2`). -/
def bcastAdd (m1 m2 : Mat) : Option Mat := bcastOp (· + ·) m1 m2

/-- Python `sum(outs)` over a non-empty list of tensors (the start value
`0` broadcasts away against the first tensor). -/
def pySum (ms : List Mat) : Option Mat :=
  match ms with
  | [] => none
  | m :: rest => rest.foldlM bcastAdd m

/-- Errors raised by the embedded Python code. -/
inductive PErr where
  | assertionError
  | zeroDivisionError
deriving DecidableEq

/-- Python `a % b`, raising `ZeroDivisionError` on `b = 0`. -/
def pymod (a b : ℕ) : Except PErr ℕ :=
  if b = 0 then .error .zeroDivisionError else .ok (a % b)

/-- A `torch.nn.Linear(inF, outF, bias Bool)` layer. -/
structure Linear where
  inF : ℕ
  outF : ℕ
  w : ℕ → ℕ → ℚ
  hasBias : Bool
  b : ℕ → ℚ

/-- Apply a linear layer to a batch; `none` models the shape-mismatch
error when a row does not have `inF` entries. -/
def Linear.apply (l : Linear) (m : Mat) : Option Mat :=
  if m.all (fun r => r.length = l.inF) then
    some (m.map (fun r =>
      (List.range l.outF).map (fun o =>
        dot ((List.range l.inF).map (fun i => l.w o i)) r + (if l.hasBias then l.b o else 0))))
  else none

/-- Build a `Linear` from the parameter-supplying functions at `slot`. -/
def mkLinear (W : ℕ → ℕ → ℕ → ℚ) (B : ℕ → ℕ → ℚ) (slot inF outF : ℕ) (hasBias : Bool) : Linear :=
  ⟨inF, outF, W slot, hasBias, B slot⟩

/-- `torch.nn.BatchNorm1d(nf, affine=False)` in training mode: normalise
each column by the batch mean and (biased) batch variance, with
`eps = 1e-5`.  Fails when a row does not have `nf` entries or when the
batch holds fewer than two rows (PyTorch needs more than one value per
channel to train). -/
def bn1d (S : ℚ → ℚ) (nf : ℕ) (m : Mat) : Option Mat :=
  if m.all (fun r => r.length = nf) ∧ 1 < m.length then
    let n : ℚ := (m.length : ℚ)
    let mean : ℕ → ℚ := fun j => (m.map (fun r => r.getD j 0)).sum / n
    let var : ℕ → ℚ := fun j => (m.map (fun r => (r.getD j 0 - mean j) ^ 2)).sum / n
    some (m.map (fun r => (List.range nf).map (fun j =>
      (r.getD j 0 - mean j) / S (var j + 1 / 100000))))
  else none

/-- Apply one `Sequential([BatchNorm1d?, Linear, LeakyReLU])` encoder of
`AttentionCritic` (the `BatchNorm1d` has `num_features` equal to the
linear layer's input width). -/
def encApply (S : ℚ → ℚ) (norm_in : Bool) (lin : Linear) (m : Mat) : Option Mat := do
  let m1 ← if norm_in then bn1d S lin.inF m else some m
  let m2 ← lin.apply m1
  some (m2.map (fun r => r.map lrelu))

/-- `[x for j, x in enumerate(l) if j != a_i]` (source line 129/130): the
entries of `l` whose position differs from `a_i`. -/
def exceptIdx {α : Type} (l : List α) (a_i : ℕ) : List α :=
  (l.enum.filter (fun p => p.1 ≠ a_i)).map Prod.snd

/-- Truncating three-way zip (Python `zip`). -/
def zip3 {α β γ : Type} : List α → List β → List γ → List (α × β × γ)
  | a :: as, b :: bs, c :: cs => (a, b, c) :: zip3 as bs cs
  | _, _, _ => []

/-- Index of the first maximal entry of a row (`tensor.max(dim=1)`),
`none` on an empty row. -/
def argmaxAux : ℕ → ℕ → ℚ → List ℚ → ℕ
  | _, bi, _, [] => bi
  | i, bi, bv, x :: xs => if bv < x then argmaxAux (i + 1) i x xs else argmaxAux (i + 1) bi bv xs

/-- First-max index of a row, as `actions.max(dim=1, keepdim=True)[1]`
produces per batch row. -/
def argmaxRow : List ℚ → Option ℕ
  | [] => none
  | x :: xs => some (argmaxAux 1 0 x xs)

/-- The `AttentionCritic` module: per-agent encoders and critics plus the
per-head key/selector/value projections (source lines 8-73). -/
structure AttentionCritic where
  sa_sizes : List (ℕ × ℕ)
  hidden_dim : ℕ
  norm_in : Bool
  attend_heads : ℕ
  critic_encoders : List Linear
  critics : List (Linear × Linear)
  state_encoders : List Linear
  key_extractors : List Linear
  selector_extractors : List Linear
  value_extractors : List Linear

/-- `self.nagents = len(sa_sizes)`. -/
def AttentionCritic.nagents (net : AttentionCritic) : ℕ := net.sa_sizes.length

/-- `AttentionCritic.__init__` (source lines 14-73).  The `assert` of line
25 raises `AssertionError` when `hidden_dim % attend_heads ≠ 0` and the
`%` itself raises `ZeroDivisionError` when `attend_heads = 0`.  Each
created `nn.Linear` draws its parameters from `W`/`B` at a distinct slot
(agent `i` uses slots `4*i .. 4*i+3`, head `i` uses slots
`4*n + 3*i .. 4*n + 3*i + 2`). -/
def AttentionCritic.init (W : ℕ → ℕ → ℕ → ℚ) (B : ℕ → ℕ → ℚ)
    (sa_sizes : List (ℕ × ℕ)) (hidden_dim : ℕ) (norm_in : Bool) (attend_heads : ℕ) :
    Except PErr AttentionCritic := do
  let m ← pymod hidden_dim attend_heads
  if m ≠ 0 then
    .error .assertionError
  else
    let n := sa_sizes.length
    let attend_dim := hidden_dim / attend_heads
    .ok
      { sa_sizes := sa_sizes
        hidden_dim := hidden_dim
        norm_in := norm_in
        attend_heads := attend_heads
        critic_encoders := sa_sizes.enum.map (fun p =>
          mkLinear W B (4 * p.1) (p.2.1 + p.2.2) hidden_dim true)
        critics := sa_sizes.enum.map (fun p =>
          (mkLinear W B (4 * p.1 + 1) (2 * hidden_dim) hidden_dim true,
           mkLinear W B (4 * p.1 + 2) hidden_dim p.2.2 true))
        state_encoders := sa_sizes.enum.map (fun p =>
          mkLinear W B (4 * p.1 + 3) p.2.1 hidden_dim true)
        key_extractors := (List.range attend_heads).map (fun i =>
          mkLinear W B (4 * n + 3 * i) hidden_dim attend_dim false)
        selector_extractors := (List.range attend_heads).map (fun i =>
          mkLinear W B (4 * n + 3 * i + 1) hidden_dim attend_dim false)
        value_extractors := (List.range attend_heads).map (fun i =>
          mkLinear W B (4 * n + 3 * i + 2) hidden_dim attend_dim true) }

/-- `sa_encodings = [encoder(inp) for encoder, inp in zip(self.critic_encoders, inps)]`
(source line 110), where `inps` are the concatenated `(state, action)`
batches of line 108. -/
def AttentionCritic.saEncodings (S : ℚ → ℚ) (net : AttentionCritic)
    (inps : List (Mat × Mat)) : Option (List Mat) :=
  (net.critic_encoders.zip (inps.map catPair)).mapM
    (fun p => encApply S net.norm_in p.1 p.2)

/-- `s_encodings = [self.state_encoders[a_i](states[a_i]) for a_i in agents]`
(source line 112); an out-of-range agent index raises. -/
def AttentionCritic.sEncodings (S : ℚ → ℚ) (net : AttentionCritic)
    (states : List Mat) (agents : List ℕ) : Option (List Mat) :=
  agents.mapM (fun a_i => do
    let se ← net.state_encoders.get? a_i
    let st ← states.get? a_i
    encApply S net.norm_in se st)

/-- `all_head_keys` (source line 114): for each head, the key projection
of every agent's state-action encoding. -/
def AttentionCritic.allHeadKeys (S : ℚ → ℚ) (net : AttentionCritic)
    (inps : List (Mat × Mat)) : Option (List (List Mat)) := do
  let sa ← net.saEncodings S inps
  net.key_extractors.mapM (fun k => sa.mapM k.apply)

/-- `all_head_values` (source line 116): the value projection
(`Linear` then `LeakyReLU`) of every agent's state-action encoding. -/
def AttentionCritic.allHeadValues (S : ℚ → ℚ) (net : AttentionCritic)
    (inps : List (Mat × Mat)) : Option (List (List Mat)) := do
  let sa ← net.saEncodings S inps
  net.value_extractors.mapM (fun v =>
    sa.mapM (fun enc => (v.apply enc).map (fun m => m.map (fun r => r.map lrelu))))

/-- `all_head_selectors` (source lines 118-119), kept exactly as written:
the positions `i` of the already-subset `s_encodings` are filtered by
membership `i in agents`. -/
def AttentionCritic.allHeadSelectors (S : ℚ → ℚ) (net : AttentionCritic)
    (states : List Mat) (agents : List ℕ) : Option (List (List Mat)) := do
  let se ← net.sEncodings S states agents
  net.selector_extractors.mapM (fun sel =>
    (se.enum.filter (fun p => p.1 ∈ agents)).mapM (fun p => sel.apply p.2))

/-- Attention logits for one head and one requested agent (source lines
132-133): batch row `b` holds `dot(selector[b], key_j[b])` for each
remaining agent `j`. -/
def attendLogits (sel : Mat) (keys : List Mat) : Mat :=
  (List.range sel.length).map (fun b =>
    keys.map (fun k => dot (sel.getD b []) (k.getD b [])))

/-- `(torch.stack(values).permute(1, 2, 0) * attend_weights).sum(dim=2)`
(source lines 137-138): batch row `b`, feature `d` holds
`Σ_j values_j[b][d] * weights[b][j]`. -/
def otherVals (values : List Mat) (weights : Mat) : Mat :=
  (List.range weights.length).map (fun b =>
    (List.range (((values.headD []).headD []).length)).map (fun d =>
      ((values.zip (weights.getD b [])).map
        (fun p => ((p.1.getD b []).getD d 0) * p.2)).sum))

/-- The body of the attention loop for one head and one requested agent
`a_i` (source lines 129-141): keys and values are the per-agent lists
with position `a_i` dropped, the logits are scaled by `sqrt` of the key
width (`keys[0].shape[1]`, raising when no key remains), and the weights
are the softmax of the scaled logits over the remaining agents.  Returns
`(other_values, attend_logits, attend_weights)`. -/
def headAgentCalc (E S : ℚ → ℚ) (hk hv : List Mat) (a_i : ℕ) (sel : Mat) :
    Option (Mat × Mat × Mat) := do
  let keys := exceptIdx hk a_i
  let values := exceptIdx hv a_i
  let k0 ← keys.head?
  let logits := attendLogits sel keys
  let scaled := logits.map (fun r => r.map (fun x => x / S (((k0.headD []).length : ℚ))))
  let weights := scaled.map (softmaxL E)
  some (otherVals values weights, logits, weights)

/-- One head of the attention loop (source line 128): Python's `zip`
truncates to the shortest of `range(len(agents))`, `agents` and the
head's selector list. -/
def AttentionCritic.headCalc (E S : ℚ → ℚ) (agents : List ℕ) (hk hv hs : List Mat) :
    Option (List (Mat × Mat × Mat)) :=
  (zip3 (List.range agents.length) agents hs).mapM
    (fun t => headAgentCalc E S hk hv t.2.1 t.2.2)

/-- All heads of the attention loop (source lines 125-141). -/
def AttentionCritic.allHeadCalcs (E S : ℚ → ℚ) (net : AttentionCritic)
    (inps : List (Mat × Mat)) (agents : List ℕ) :
    Option (List (List (Mat × Mat × Mat))) := do
  let hks ← net.allHeadKeys S inps
  let hvs ← net.allHeadValues S inps
  let hss ← net.allHeadSelectors S (inps.map Prod.fst) agents
  (zip3 hks hvs hss).mapM (fun t => AttentionCritic.headCalc E S agents t.1 t.2.1 t.2.2)

/-- `other_all_values[i]` / `all_attend_logits[i]` / `all_attend_probs[i]`:
the per-head results accumulated for requested-agent position `i`
(missing for the positions the truncated selector zip never reached). -/
def gatherAgent (calcs : List (List (Mat × Mat × Mat))) (i : ℕ) : List (Mat × Mat × Mat) :=
  calcs.filterMap (fun l => l.get? i)

/-- Shape admissibility of `probs.squeeze().sum(1)` (source lines
145-146) for an attention-weight tensor of shape `(batch, 1, others)`:
after `squeeze`, dimension 1 exists only when both remaining sizes
exceed one. -/
def entropyShapeOk (probs : Mat) : Bool :=
  decide (1 < probs.length) && decide (1 < (probs.headD []).length)

/-- The values a single agent contributes to the result list, in source
order (lines 152-163). -/
inductive Ret where
  | q (m : Mat)
  | allq (m : Mat)
  | regs (r : ℚ)
  | attend (ps : List Mat)
deriving DecidableEq

/-- Mean of the squared entries of a tensor (`(logit**2).mean()`). -/
def sqMean (m : Mat) : ℚ :=
  ((m.flatten.map (fun x => x * x)).sum) / ((m.flatten.length : ℚ))

/-- The per-agent tail of `AttentionCritic.forward` (source lines
144-172) for requested agent `a_i` at position `i`: the entropy shapes
are checked (their values feed only the logger), the critic input is the
state encoding concatenated with the per-head attended values, the
critic (`Linear`, `LeakyReLU`, `Linear`) produces `all_q`, and `q`
gathers the column of each row's chosen action. -/
def AttentionCritic.agentCalc (net : AttentionCritic)
    (return_q return_all_q regularize return_attend : Bool)
    (actions : List Mat) (s_enc : Mat) (calcsAt : List (Mat × Mat × Mat)) (a_i : ℕ) :
    Option (List Ret) := do
  let probsList := calcsAt.map (fun t => t.2.2)
  let logitsList := calcsAt.map (fun t => t.2.1)
  let othersList := calcsAt.map (fun t => t.1)
  let _ ← probsList.mapM (fun p => if entropyShapeOk p then some () else none)
  let critic_in := cat1 (s_enc :: othersList)
  let cr ← net.critics.get? a_i
  let h1 ← cr.1.apply critic_in
  let all_q ← cr.2.apply (h1.map (fun r => r.map lrelu))
  let acts ← actions.get? a_i
  let int_acs ← acts.mapM argmaxRow
  let q ← (all_q.zip int_acs).mapM (fun p => (p.1.get? p.2).map (fun x => [x]))
  let r1 : List Ret := if return_q then [Ret.q q] else []
  let r2 : List Ret := if return_all_q then [Ret.allq all_q] else []
  let r3 : List Ret := if regularize then
      [Ret.regs (1 / 1000 * (logitsList.map sqMean).sum)] else []
  let r4 : List Ret := if return_attend then [Ret.attend probsList] else []
  some (r1 ++ r2 ++ r3 ++ r4)

/-- `AttentionCritic.forward` (source lines 89-176) up to the final
singleton-unwrapping: the list of per-requested-agent result lists.
`none` models a runtime error. -/
def AttentionCritic.forwardCore (E S : ℚ → ℚ) (net : AttentionCritic)
    (inps : List (Mat × Mat)) (agents : List ℕ)
    (return_q return_all_q regularize return_attend : Bool) :
    Option (List (List Ret)) := do
  let states := inps.map Prod.fst
  let actions := inps.map Prod.snd
  let sEnc ← net.sEncodings S states agents
  let calcs ← net.allHeadCalcs E S inps agents
  agents.enum.mapM (fun p => do
    let se ← sEnc.get? p.1
    net.agentCalc return_q return_all_q regularize return_attend
      actions se (gatherAgent calcs p.1) p.2)

/-- The dynamic shape of the Python return value after the
singleton-unwrapping of lines 169-176. -/
inductive PyOut where
  | single (r : Ret)
  | many (rs : List PyOut)

/-- Lines 169-176: each agent's list collapses to its sole element when
it has exactly one, and so does the outer list. -/
def pyReturn (all : List (List Ret)) : PyOut :=
  let per := all.map (fun rs =>
    match rs with
    | [r] => PyOut.single r
    | _ => PyOut.many (rs.map PyOut.single))
  match per with
  | [x] => x
  | _ => PyOut.many per

/-- `AttentionCritic.forward` with the default `agents=None` resolved to
`range(len(self.critic_encoders))` (source lines 104-105). -/
def AttentionCritic.forward (E S : ℚ → ℚ) (net : AttentionCritic)
    (inps : List (Mat × Mat)) (agents : Option (List ℕ))
    (return_q return_all_q regularize return_attend : Bool) : Option PyOut :=
  (net.forwardCore E S inps (agents.getD (List.range net.critic_encoders.length))
    return_q return_all_q regularize return_attend).map pyReturn

/-- One strain of `SelectiveAttentionNetwork`/`AttentionNetwork` (source
lines 190-204 / 286-299): `Linear(input_dim, w)`, then `d - 1` layers
`Linear(w, w)`, then `Linear(w, output_dim)`.  Strain `i` draws its
parameters at slots `1000 * i + j`. -/
def mkStrain (W : ℕ → ℕ → ℕ → ℚ) (B : ℕ → ℕ → ℚ) (i input_dim w output_dim d : ℕ) :
    List Linear :=
  [mkLinear W B (1000 * i) input_dim w true] ++
    (List.range (d - 1)).map (fun j => mkLinear W B (1000 * i + 1 + j) w w true) ++
    [mkLinear W B (1000 * i + d) w output_dim true]

/-- Pass a batch through the layers `strain[:-1]`, applying the hidden
activation after each (source lines 235-237 / 253-255 / 308-310). -/
def hiddenPass (act : ℚ → ℚ) (layers : List Linear) (m : Mat) : Option Mat :=
  layers.foldlM (fun x l => (l.apply x).map (fun mm => mm.map (fun r => r.map act))) m

/-- A full strain pass: hidden layers with the activation, then the bare
final layer `strain[-1]` (source lines 235-241 / 308-314); an empty layer
list would fault on `strain[-1]`. -/
def strainApply (act : ℚ → ℚ) (st : List Linear) (input : Mat) : Option Mat := do
  let x ← hiddenPass act st.dropLast input
  let last ← st.getLast?
  last.apply x

/-- The `SelectiveAttentionNetwork` module (source lines 179-226).  The
hidden activations of both the strains and the selector are `ReLU` and
the selector output activation is `nn.Softmax(dim=0)`. -/
structure SelectiveAttentionNetwork where
  input_dim : ℕ
  output_dim : ℕ
  strains : List (List Linear)
  selector_input_dim : ℕ
  selector_output_dim : ℕ
  selector : List Linear

/-- `get_selector_layers` (source lines 273-274): the weight of the first
layer of every strain, registered at construction time. -/
def SelectiveAttentionNetwork.selectorLayers (net : SelectiveAttentionNetwork) : List Linear :=
  net.strains.map (fun st => st.headD (mkLinear (fun _ _ _ => 0) (fun _ _ => 0) 0 0 0 false))

/-- `SelectiveAttentionNetwork.__init__` (source lines 180-225): asserts
`selector_depth >= 1` and `len(widths) == len(hidden_layers)`, builds one
strain per entry of `widths`, and builds the selector out of
`Linear(sIn, sIn)` layers (the `selector_width` argument is overwritten
by `selector_input_dim` on line 209) ending in `Linear(sIn, len(widths))`.
Selector layer `j` draws its parameters at slots `900000 + j`. -/
def SelectiveAttentionNetwork.init (W : ℕ → ℕ → ℕ → ℚ) (B : ℕ → ℕ → ℚ)
    (input_dim output_dim : ℕ) (widths hidden_layers : List ℕ)
    (selector_width selector_depth : ℕ) : Except PErr SelectiveAttentionNetwork :=
  if ¬ (1 ≤ selector_depth) then .error .assertionError
  else if ¬ (widths.length = hidden_layers.length) then .error .assertionError
  else
    let sIn := input_dim + output_dim * widths.length
    let _ := selector_width
    .ok
      { input_dim := input_dim
        output_dim := output_dim
        strains := (widths.zip hidden_layers).enum.map (fun p =>
          mkStrain W B p.1 input_dim p.2.1 output_dim p.2.2)
        selector_input_dim := sIn
        selector_output_dim := widths.length
        selector :=
          [mkLinear W B 900000 sIn sIn true] ++
            (List.range (selector_depth - 1)).map (fun j =>
              mkLinear W B (900001 + j) sIn sIn true) ++
            [mkLinear W B (900000 + selector_depth) sIn widths.length true] }

/-- `strain_outputs` (source lines 230-241): every strain applied to the
input. -/
def SelectiveAttentionNetwork.strainOuts (net : SelectiveAttentionNetwork)
    (input : Mat) : Option (List Mat) :=
  net.strains.mapM (fun st => strainApply relu st input)

/-- `selector_input` (source lines 243-249): the horizontally
concatenated strain outputs followed by the raw input. -/
def SelectiveAttentionNetwork.selectorIn (net : SelectiveAttentionNetwork)
    (input : Mat) : Option Mat := do
  let souts ← net.strainOuts input
  let strain_outs ← catM souts
  some (cat1 [strain_outs, input])

/-- The selector's pre-softmax output `x` (source lines 252-257): the
layers `selector[:-1]` with `ReLU` after each, then the bare final layer
`selector[-1]` — the same pass structure as a strain. -/
def SelectiveAttentionNetwork.selectorLogits (net : SelectiveAttentionNetwork)
    (input : Mat) : Option Mat := do
  let si ← net.selectorIn input
  strainApply relu net.selector si

/-- `scores = nn.Softmax(dim=0)(x)` (source lines 216, 258) held
column-major: `nn.Softmax(dim=0)` normalises each column of the
`(batch, nstrains)` tensor over the batch dimension, so
`scoresT[i][b] = scores[b][i]` and each entry of `scoresT` is one
column's softmax. -/
def SelectiveAttentionNetwork.scoresT (E : ℚ → ℚ) (net : SelectiveAttentionNetwork)
    (input : Mat) : Option (List (List ℚ)) :=
  (net.selectorLogits input).map (fun x => (transposeM x).map (softmaxL E))

/-- `scores[:, i:i+1].repeat(1, 5)` (source line 263) built from column
`i` of the score tensor: each batch entry repeated to width exactly 5. -/
def repeat5 (col : List ℚ) : Mat := col.map (fun v => List.replicate 5 v)

/-- The scored strain outputs `out * score` (source lines 261-266); the
elementwise product broadcasts the strain output of width `output_dim`
against the width-5 repeated score column. -/
def SelectiveAttentionNetwork.scoredOuts (E : ℚ → ℚ) (net : SelectiveAttentionNetwork)
    (input : Mat) : Option (List Mat) := do
  let souts ← net.strainOuts input
  let st ← net.scoresT E input
  (List.range souts.length).mapM (fun i =>
    bcastMul (souts.getD i []) (repeat5 (st.getD i [])))

/-- `SelectiveAttentionNetwork.forward` (source lines 228-271):
`output = sum(outs)`. -/
def SelectiveAttentionNetwork.forward (E : ℚ → ℚ) (net : SelectiveAttentionNetwork)
    (input : Mat) : Option Mat := do
  let outs ← net.scoredOuts E input
  pySum outs

/-- The `AttentionNetwork` module (source lines 276-319): the strains
alone, combined by `torch.stack(...).sum(0)`. -/
structure AttentionNetwork where
  input_dim : ℕ
  output_dim : ℕ
  strains : List (List Linear)

/-- `AttentionNetwork.__init__` (source lines 277-299): the same two
asserts and strain construction as `SelectiveAttentionNetwork`, with no
selector. -/
def AttentionNetwork.init (W : ℕ → ℕ → ℕ → ℚ) (B : ℕ → ℕ → ℚ)
    (input_dim output_dim : ℕ) (widths hidden_layers : List ℕ)
    (selector_width selector_depth : ℕ) : Except PErr AttentionNetwork :=
  if ¬ (1 ≤ selector_depth) then .error .assertionError
  else if ¬ (widths.length = hidden_layers.length) then .error .assertionError
  else
    let _ := selector_width
    .ok
      { input_dim := input_dim
        output_dim := output_dim
        strains := (widths.zip hidden_layers).enum.map (fun p =>
          mkStrain W B p.1 input_dim p.2.1 output_dim p.2.2) }

/-- `strain_outputs` of `AttentionNetwork.forward` (source lines
303-314). -/
def AttentionNetwork.strainOuts (net : AttentionNetwork) (input : Mat) : Option (List Mat) :=
  net.strains.mapM (fun st => strainApply relu st input)

/-- `AttentionNetwork.forward` (source lines 301-319):
`torch.stack(strain_outputs, dim=0).sum(0)`. -/
def AttentionNetwork.forward (net : AttentionNetwork) (input : Mat) : Option Mat := do
  let souts ← net.strainOuts input
  stackSum souts

/-- The critic of one agent inside `SelectiveAttentionCritic`: a
`SelectiveAttentionNetwork` when `with_selector` else an
`AttentionNetwork` (source lines 354-357). -/
inductive CriticNet where
  | san (n : SelectiveAttentionNetwork)
  | an (n : AttentionNetwork)

/-- Apply an agent's critic network to a batch. -/
def CriticNet.applyNet (E : ℚ → ℚ) : CriticNet → Mat → Option Mat
  | .san n, m => n.forward E m
  | .an n, m => n.forward m

/-- `np.sum(sa_sizes)` (source line 340): the sum of every entry of the
list of `(state, action)` size pairs. -/
def npSumPairs (l : List (ℕ × ℕ)) : ℕ := (l.map (fun p => p.1 + p.2)).sum

/-- The `SelectiveAttentionCritic` module (source lines 321-365). -/
structure SelectiveAttentionCritic where
  sa_sizes : List (ℕ × ℕ)
  full_input_size : ℕ
  with_selector : Bool
  critics : List CriticNet

/-- `SelectiveAttentionCritic.__init__` (source lines 327-365): one
critic per agent, each taking the full joint input
`full_input_size = np.sum(sa_sizes)` and producing `odim = adim`
outputs.  Agent `k`'s critic draws its parameters from `W`/`B` shifted
by `10 ^ 9 * (k + 1)`. -/
def SelectiveAttentionCritic.init (W : ℕ → ℕ → ℕ → ℚ) (B : ℕ → ℕ → ℚ)
    (sa_sizes : List (ℕ × ℕ)) (widths hidden_layers : List ℕ)
    (selector_width selector_depth : ℕ) (with_selector : Bool) :
    Except PErr SelectiveAttentionCritic := do
  let fis := npSumPairs sa_sizes
  let critics ← sa_sizes.enum.mapM (fun p => do
    let shift := 10 ^ 9 * (p.1 + 1)
    if with_selector then
      let n ← SelectiveAttentionNetwork.init (fun s => W (shift + s)) (fun s => B (shift + s))
        fis p.2.2 widths hidden_layers selector_width selector_depth
      pure (CriticNet.san n)
    else
      let n ← AttentionNetwork.init (fun s => W (shift + s)) (fun s => B (shift + s))
        fis p.2.2 widths hidden_layers selector_width selector_depth
      pure (CriticNet.an n))
  .ok
    { sa_sizes := sa_sizes
      full_input_size := fis
      with_selector := with_selector
      critics := critics }

/-- `critic_in = torch.cat(tuple(inps), dim=1)` (source line 394): the
joint input shared by every agent's critic, built from the per-agent
concatenated `(state, action)` batches. -/
def SelectiveAttentionCritic.criticIn (inps2 : List Mat) : Option Mat := catM inps2

/-- `l1_loss` of the `regularize` branch (source lines 403-405): the sum
over the registered selector layers of the sum of all weight entries. -/
def SelectiveAttentionCritic.l1Loss (n : SelectiveAttentionNetwork) : ℚ :=
  (n.selectorLayers.map (fun l =>
    ((List.range l.outF).map (fun o => ((List.range l.inF).map (fun i => l.w o i)).sum)).sum)).sum

/-- The tail of `SelectiveAttentionCritic.forward`'s per-agent loop after
the critic input is available (source lines 395-424).  The `regularize`
branch calls `get_selector_layers`, which only the selector-based critic
has (an `AttentionNetwork` critic would raise `AttributeError`). -/
def SelectiveAttentionCritic.agentRest (E : ℚ → ℚ) (net : SelectiveAttentionCritic)
    (critic_in : Mat) (actions : List Mat)
    (return_q return_all_q regularize : Bool) (a_i : ℕ) : Option (List Ret) := do
  let cr ← net.critics.get? a_i
  let all_q ← cr.applyNet E critic_in
  let acts ← actions.get? a_i
  let int_acs ← acts.mapM argmaxRow
  let q ← (all_q.zip int_acs).mapM (fun p => (p.1.get? p.2).map (fun x => [x]))
  let r1 : List Ret := if return_q then [Ret.q q] else []
  let r2 : List Ret := if return_all_q then [Ret.allq all_q] else []
  let r3 ← if regularize then
      match cr with
      | .san n => some [Ret.regs (SelectiveAttentionCritic.l1Loss n)]
      | .an _ => none
    else some []
  some (r1 ++ r2 ++ r3)

/-- The body of `SelectiveAttentionCritic.forward`'s per-agent loop
(source lines 392-424): the critic input is the concatenation of all
agents' inputs, independent of `a_i`. -/
def SelectiveAttentionCritic.agentCalc (E : ℚ → ℚ) (net : SelectiveAttentionCritic)
    (inps2 : List Mat) (actions : List Mat)
    (return_q return_all_q regularize : Bool) (a_i : ℕ) : Option (List Ret) :=
  (SelectiveAttentionCritic.criticIn inps2).bind (fun ci =>
    net.agentRest E ci actions return_q return_all_q regularize a_i)

/-- `SelectiveAttentionCritic.forward` (source lines 367-428) up to the
final singleton-unwrapping. -/
def SelectiveAttentionCritic.forwardCore (E : ℚ → ℚ) (net : SelectiveAttentionCritic)
    (inps : List (Mat × Mat)) (agents : List ℕ)
    (return_q return_all_q regularize : Bool) : Option (List (List Ret)) :=
  let actions := inps.map Prod.snd
  let inps2 := inps.map catPair
  agents.mapM (fun a_i =>
    net.agentCalc E inps2 actions return_q return_all_q regularize a_i)

/-- `SelectiveAttentionCritic.forward` with `agents=None` resolved to
`range(self.nagents)` (source lines 382-383) and the singleton
unwrapping of lines 421-428. -/
def SelectiveAttentionCritic.forward (E : ℚ → ℚ) (net : SelectiveAttentionCritic)
    (inps : List (Mat × Mat)) (agents : Option (List ℕ))
    (return_q return_all_q regularize : Bool) : Option PyOut :=
  (net.forwardCore E inps (agents.getD (List.range net.sa_sizes.length))
    return_q return_all_q regularize).map pyReturn

/-- Which module list of `AttentionCritic` a parameter tensor lives in. -/
inductive ModuleTag where
  | keyExt
  | selExt
  | valExt
  | criticEnc
  | stateEnc
  | criticHead
deriving DecidableEq

/-- `self.shared_modules = [key_extractors, selector_extractors,
value_extractors, critic_encoders]` (source lines 72-73), as a predicate
on the tags. -/
def sharedTag : ModuleTag → Bool
  | .keyExt => true
  | .selExt => true
  | .valExt => true
  | .criticEnc => true
  | .stateEnc => false
  | .criticHead => false

/-- One parameter tensor with its value and its accumulated gradient
(flattened). -/
structure PTensor where
  tag : ModuleTag
  val : List ℚ
  grad : List ℚ
deriving DecidableEq

/-- The mutable parameter state of an `AttentionCritic`: every parameter
tensor of the module, tagged by the module list holding it, plus
`nagents`. -/
structure ACParams where
  nagents : ℕ
  params : List PTensor
deriving DecidableEq

/-- `scale_shared_grads` (source lines 81-87): for every parameter
reached through `shared_parameters` — i.e. every parameter of the four
shared module lists — the gradient is multiplied in place by
`1. / nagents`; nothing else is touched. -/
def ACParams.scale_shared_grads (st : ACParams) : ACParams :=
  { st with params := st.params.map (fun p =>
      if sharedTag p.tag then
        { p with grad := p.grad.map (fun g => g * (1 / (st.nagents : ℚ))) }
      else p) }

/-- Every row of `m` has exactly `k` entries (a rectangular
`(batch, k)` tensor). -/
def RowsW (m : Mat) (k : ℕ) : Prop := ∀ r ∈ m, r.length = k

/-- Zero-valued parameter suppliers, used for the concrete evaluations
(the evaluated facts do not depend on the parameter values). -/
def W0 : ℕ → ℕ → ℕ → ℚ := fun _ _ _ => 0

/-- Zero-valued bias supplier. -/
def B0 : ℕ → ℕ → ℚ := fun _ _ => 0

/-- Extract the payload of a succeeded construction. -/
def getOk {α : Type} (fallback : α) : Except PErr α → α
  | .ok a => a
  | .error _ => fallback

/-- An empty fallback `AttentionCritic`. -/
def acFallback : AttentionCritic := ⟨[], 0, false, 0, [], [], [], [], [], []⟩

/-- An empty fallback `SelectiveAttentionNetwork`. -/
def sanFallback : SelectiveAttentionNetwork := ⟨0, 0, [], 0, 0, []⟩

/-- Three agents with one-dimensional states and actions. -/
def acSizes3 : List (ℕ × ℕ) := [(1, 1), (1, 1), (1, 1)]

/-- A concrete `AttentionCritic(sa_sizes=[(1,1)]*3, hidden_dim=2,
norm_in=False, attend_heads=1)` with zero-valued parameters. -/
def acNet3 : AttentionCritic := getOk acFallback (AttentionCritic.init W0 B0 acSizes3 2 false 1)

/-- A batch of two zero observations and actions for each of the three
agents. -/
def acInps3 : List (Mat × Mat) :=
  [([[0], [0]], [[0], [0]]), ([[0], [0]], [[0], [0]]), ([[0], [0]], [[0], [0]])]

/-- Two agents with one-dimensional states and actions. -/
def acSizes2 : List (ℕ × ℕ) := [(1, 1), (1, 1)]

/-- A concrete `AttentionCritic(sa_sizes=[(1,1)]*2, hidden_dim=1,
norm_in=False, attend_heads=1)` with zero-valued parameters. -/
def acNet2 : AttentionCritic := getOk acFallback (AttentionCritic.init W0 B0 acSizes2 1 false 1)

/-- A single zero observation and action for each of the two agents. -/
def acInps2 : List (Mat × Mat) := [([[0]], [[0]]), ([[0]], [[0]])]

/-- A concrete `SelectiveAttentionNetwork(input_dim=1, output_dim=5,
widths=[1,1,1], hidden_layers=[1,1,1], selector_depth=1)` with
zero-valued parameters: its selector logits vanish identically, so its
softmax scores do not depend on the exponential function. -/
def c3Net : SelectiveAttentionNetwork :=
  getOk sanFallback (SelectiveAttentionNetwork.init W0 B0 1 5 [1, 1, 1] [1, 1, 1] 7 1)

/-- A batch of two one-dimensional inputs for `c3Net`. -/
def c3In : Mat := [[0], [0]]

/-- A concrete `SelectiveAttentionNetwork(input_dim=1, output_dim=2,
widths=[1], hidden_layers=[1], selector_depth=1)`: its strain output
width 2 is incompatible with the width-5 repeated score. -/
def c5Net : SelectiveAttentionNetwork :=
  getOk sanFallback (SelectiveAttentionNetwork.init W0 B0 1 2 [1] [1] 3 1)

/-- An empty fallback `AttentionNetwork`. -/
def anFallback : AttentionNetwork := ⟨0, 0, []⟩

/-- A concrete `AttentionNetwork(input_dim=1, output_dim=1, widths=[1,2],
hidden_layers=[1,1])` with zero-valued parameters. -/
def anNet9 : AttentionNetwork := getOk anFallback (AttentionNetwork.init W0 B0 1 1 [1, 2] [1, 1] 0 1)

/-- An empty fallback `SelectiveAttentionCritic`. -/
def sacFallback : SelectiveAttentionCritic := ⟨[], 0, true, []⟩

/-- A concrete two-agent `SelectiveAttentionCritic` with state sizes 1
and action sizes 1 and 2. -/
def sacNet6 : SelectiveAttentionCritic :=
  getOk sacFallback (SelectiveAttentionCritic.init W0 B0 [(1, 1), (1, 2)] [1] [1] 1 1 true)

/-- A one-row batch for `sacNet6`: each agent's state and action widths
match its `(1,1)` / `(1,2)` sizes. -/
def sacInps6 : List (Mat × Mat) := [([[0]], [[0]]), ([[0]], [[0, 0]])]

theorem enumFrom_filter_big_map_snd {α : Type} (l : List α) (m j : ℕ) (h : j < m) :
    ((List.enumFrom m l).filter (fun p => p.1 ≠ j)).map Prod.snd = l := by
  induction l generalizing m with
  | nil => rfl
  | cons a t ih =>
    rw [List.enumFrom, List.filter_cons, if_pos (by simp; omega), List.map_cons,
      ih (m + 1) (Nat.lt_succ_of_lt h)]

theorem enumFrom_filter_ne_map_snd {α : Type} (l : List α) (n i : ℕ) :
    ((List.enumFrom n l).filter (fun p => p.1 ≠ n + i)).map Prod.snd = l.eraseIdx i := by
  induction l generalizing n i with
  | nil => rfl
  | cons a t ih =>
    cases i with
    | zero =>
      rw [List.enumFrom, List.filter_cons, if_neg (by simp), List.eraseIdx_cons_zero]
      simp only [Nat.add_zero]
      exact enumFrom_filter_big_map_snd t (n + 1) n (Nat.lt_succ_self n)
    | succ k =>
      rw [List.enumFrom, List.filter_cons, if_pos (by simp), List.map_cons,
        List.eraseIdx_cons_succ]
      have h2 : n + (k + 1) = (n + 1) + k := by omega
      rw [List.cons_inj_right]
      simp only [h2]
      exact ih (n + 1) k

theorem exceptIdx_eq_eraseIdx {α : Type} (l : List α) (i : ℕ) :
    exceptIdx l i = l.eraseIdx i := by
  have h := enumFrom_filter_ne_map_snd l 0 i
  simpa [exceptIdx, List.enum] using h

/-- C1: in `AttentionCritic.forward`, the keys and values entering agent
`a_i`'s multi-head attention exclude agent `a_i`'s own state-action
encoding: for every head, the filtered key and value lists equal the
per-agent lists with position `a_i` removed, and the attention logits and
attended values of the head-loop body are computed from exactly those
reduced lists. -/
theorem claim_c1_attention_excludes_self (E S : ℚ → ℚ) (net : AttentionCritic)
    (inps : List (Mat × Mat)) (agents : List ℕ) (a_i : ℕ) (hks hvs : List (List Mat))
    (hkeys : net.allHeadKeys S inps = some hks)
    (hvals : net.allHeadValues S inps = some hvs)
    (ha : a_i ∈ agents) :
    (∀ hk ∈ hks, exceptIdx hk a_i = hk.eraseIdx a_i) ∧
    (∀ hv ∈ hvs, exceptIdx hv a_i = hv.eraseIdx a_i) ∧
    (∀ hk ∈ hks, ∀ hv ∈ hvs, ∀ sel ov lg w,
      headAgentCalc E S hk hv a_i sel = some (ov, lg, w) →
      lg = attendLogits sel (hk.eraseIdx a_i) ∧ ov = otherVals (hv.eraseIdx a_i) w) := by
  refine ⟨fun hk _ => exceptIdx_eq_eraseIdx hk a_i,
    fun hv _ => exceptIdx_eq_eraseIdx hv a_i, ?_⟩
  intro hk _ hv _ sel ov lg w hcalc
  simp only [headAgentCalc, exceptIdx_eq_eraseIdx] at hcalc
  cases hhd : (hk.eraseIdx a_i).head? with
  | none => rw [hhd] at hcalc; simp at hcalc
  | some k0 =>
    rw [hhd] at hcalc
    have h := Option.some.inj hcalc
    injection h with h1 h23
    injection h23 with h2 h3
    subst h1
    subst h2
    subst h3
    exact ⟨rfl, rfl⟩


/-- A closed instance of the C1 theorem at a concrete two-agent critic. -/
theorem claim_c1_witness :
    acNet2.allHeadKeys oneFn acInps2 = some [[[[0]], [[0]]]] ∧
    acNet2.allHeadValues oneFn acInps2 = some [[[[0]], [[0]]]] ∧
    (1 : ℕ) ∈ [0, 1] ∧
    ((∀ hk ∈ ([[[[0]], [[0]]]] : List (List Mat)), exceptIdx hk 1 = hk.eraseIdx 1) ∧
     (∀ hv ∈ ([[[[0]], [[0]]]] : List (List Mat)), exceptIdx hv 1 = hv.eraseIdx 1) ∧
     (∀ hk ∈ ([[[[0]], [[0]]]] : List (List Mat)), ∀ hv ∈ ([[[[0]], [[0]]]] : List (List Mat)),
       ∀ sel ov lg w, headAgentCalc oneFn oneFn hk hv 1 sel = some (ov, lg, w) →
       lg = attendLogits sel (hk.eraseIdx 1) ∧ ov = otherVals (hv.eraseIdx 1) w)) :=
  ⟨by with_unfolding_all rfl, by with_unfolding_all rfl, by decide,
   claim_c1_attention_excludes_self oneFn oneFn acNet2 acInps2 [0, 1] 1 _ _
     (by with_unfolding_all rfl) (by with_unfolding_all rfl) (by decide)⟩

theorem list_sum_map_div (l : List ℚ) (f : ℚ → ℚ) (c : ℚ) :
    (l.map (fun x => f x / c)).sum = (l.map f).sum / c := by
  induction l with
  | nil => simp
  | cons a t ih => simp [ih, add_div]

theorem list_sum_map_nonneg (E : ℚ → ℚ) (hE : ExpPos E) (l : List ℚ) :
    0 ≤ (l.map E).sum := by
  induction l with
  | nil => simp
  | cons a t ih =>
    simp only [List.map_cons, List.sum_cons]
    exact add_nonneg (hE a).le ih

theorem list_sum_map_pos (E : ℚ → ℚ) (hE : ExpPos E) (l : List ℚ) (h : l ≠ []) :
    0 < (l.map E).sum := by
  cases l with
  | nil => exact absurd rfl h
  | cons a t =>
    simp only [List.map_cons, List.sum_cons]
    exact add_pos_of_pos_of_nonneg (hE a) (list_sum_map_nonneg E hE t)

theorem softmaxL_nonneg (E : ℚ → ℚ) (hE : ExpPos E) (l : List ℚ) :
    ∀ p ∈ softmaxL E l, 0 ≤ p := by
  intro p hp
  simp only [softmaxL, List.mem_map] at hp
  obtain ⟨x, -, rfl⟩ := hp
  exact div_nonneg (hE x).le (list_sum_map_nonneg E hE l)

theorem softmaxL_sum_one (E : ℚ → ℚ) (hE : ExpPos E) (l : List ℚ) (h : l ≠ []) :
    (softmaxL E l).sum = 1 := by
  simp only [softmaxL]
  rw [list_sum_map_div]
  exact div_self (ne_of_gt (list_sum_map_pos E hE l h))

theorem headAgentCalc_weights (E S : ℚ → ℚ) (hk hv : List Mat) (a_i : ℕ) (sel ov lg w : Mat)
    (hE : ExpPos E) (h : headAgentCalc E S hk hv a_i sel = some (ov, lg, w)) :
    ∀ row ∈ w, (∀ p ∈ row, 0 ≤ p) ∧ row.sum = 1 := by
  simp only [headAgentCalc] at h
  cases hhd : (exceptIdx hk a_i).head? with
  | none => rw [hhd] at h; simp at h
  | some k0 =>
    rw [hhd] at h
    have h2 := Option.some.inj h
    injection h2 with h1 h23
    injection h23 with hlg hw
    intro row hrow
    rw [← hw] at hrow
    simp only [List.mem_map] at hrow
    obtain ⟨sr, hsr, rfl⟩ := hrow
    obtain ⟨lr, hlr, rfl⟩ := hsr
    simp only [attendLogits, List.mem_map] at hlr
    obtain ⟨b, -, rfl⟩ := hlr
    have hkne : exceptIdx hk a_i ≠ [] := by
      intro hc
      rw [hc] at hhd
      simp at hhd
    refine ⟨softmaxL_nonneg E hE _, softmaxL_sum_one E hE _ ?_⟩
    simpa using hkne

theorem mapM_some_mem {α β : Type} (f : α → Option β) :
    ∀ (l : List α) (bs : List β), l.mapM f = some bs → ∀ b ∈ bs, ∃ a ∈ l, f a = some b := by
  intro l
  induction l with
  | nil =>
    intro bs h b hb
    rw [List.mapM_nil] at h
    have hbs := Option.some.inj h
    subst hbs
    simp at hb
  | cons a t ih =>
    intro bs h b hb
    rw [List.mapM_cons] at h
    cases hfa : f a with
    | none => rw [hfa] at h; simp at h
    | some y =>
      rw [hfa] at h
      cases hmt : t.mapM f with
      | none => rw [hmt] at h; simp at h
      | some ys =>
        rw [hmt] at h
        have hbs := Option.some.inj h
        subst hbs
        cases List.mem_cons.mp hb with
        | inl hby => exact ⟨a, List.mem_cons_self a t, hby ▸ hfa⟩
        | inr hbys =>
          obtain ⟨a2, ha2, hf2⟩ := ih ys hmt b hbys
          exact ⟨a2, List.mem_cons_of_mem a ha2, hf2⟩

/-- C2: in `AttentionCritic.forward`, the attention weights produced for
each requested agent and each head are a softmax over the other agents:
for every batch element, every weight is non-negative and the weights
across the other agents sum to 1 (for every positive exponential). -/
theorem claim_c2_attend_weights_softmax (E S : ℚ → ℚ) (net : AttentionCritic)
    (inps : List (Mat × Mat)) (agents : List ℕ) (calcs : List (List (Mat × Mat × Mat)))
    (hE : ExpPos E)
    (h : net.allHeadCalcs E S inps agents = some calcs) :
    ∀ hd ∈ calcs, ∀ t ∈ hd, ∀ row ∈ t.2.2, (∀ p ∈ row, 0 ≤ p) ∧ row.sum = 1 := by
  intro hd hhd t ht
  simp only [AttentionCritic.allHeadCalcs] at h
  cases h1 : net.allHeadKeys S inps with
  | none => rw [h1] at h; simp at h
  | some hks =>
  rw [h1] at h
  cases h2 : net.allHeadValues S inps with
  | none => rw [h2] at h; simp at h
  | some hvs =>
  rw [h2] at h
  cases h3 : net.allHeadSelectors S (inps.map Prod.fst) agents with
  | none => rw [h3] at h; simp at h
  | some hss =>
  rw [h3] at h
  have h4 : (zip3 hks hvs hss).mapM
      (fun t => AttentionCritic.headCalc E S agents t.1 t.2.1 t.2.2) = some calcs := h
  obtain ⟨trip, -, hhc⟩ := mapM_some_mem _ _ _ h4 hd hhd
  simp only [AttentionCritic.headCalc] at hhc
  obtain ⟨t3, -, hac⟩ := mapM_some_mem _ _ _ hhc t ht
  obtain ⟨ov, lg, w⟩ := t
  exact headAgentCalc_weights E S trip.1 trip.2.1 t3.2.1 t3.2.2 ov lg w hE hac

/-- A closed instance of the C2 theorem at a concrete two-agent critic:
with one other agent the softmax weight is the single value 1. -/
theorem claim_c2_witness :
    ExpPos oneFn ∧
    acNet2.allHeadCalcs oneFn oneFn acInps2 [0, 1] =
      some [[([[0]], [[0]], [[1]]), ([[0]], [[0]], [[1]])]] ∧
    (∀ hd ∈ ([[([[0]], [[0]], [[1]]), ([[0]], [[0]], [[1]])]] :
        List (List (Mat × Mat × Mat))), ∀ t ∈ hd, ∀ row ∈ t.2.2,
      (∀ p ∈ row, 0 ≤ p) ∧ row.sum = 1) :=
  ⟨fun _ => one_pos, by with_unfolding_all rfl,
   claim_c2_attend_weights_softmax oneFn oneFn acNet2 acInps2 [0, 1] _
     (fun _ => one_pos) (by with_unfolding_all rfl)⟩

theorem except_ok_bind {ε α β : Type} (a : α) (f : α → Except ε β) :
    (Except.ok a >>= f : Except ε β) = f a := rfl

/-- C7: constructing an `AttentionCritic` raises an assertion error iff
`hidden_dim` is not divisible by `attend_heads` (for a positive head
count; a zero head count would raise `ZeroDivisionError` in the `%`
itself); on success every head's key, selector and value projection has
output width `hidden_dim / attend_heads`. -/
theorem claim_c7_init_assert_divisibility (W : ℕ → ℕ → ℕ → ℚ) (B : ℕ → ℕ → ℚ)
    (sa_sizes : List (ℕ × ℕ)) (hidden_dim : ℕ) (norm_in : Bool) (attend_heads : ℕ)
    (hpos : 0 < attend_heads) :
    ((AttentionCritic.init W B sa_sizes hidden_dim norm_in attend_heads =
        .error .assertionError) ↔ ¬ (attend_heads ∣ hidden_dim)) ∧
    (attend_heads ∣ hidden_dim →
      ∃ net, AttentionCritic.init W B sa_sizes hidden_dim norm_in attend_heads = .ok net ∧
        net.key_extractors.length = attend_heads ∧
        net.selector_extractors.length = attend_heads ∧
        net.value_extractors.length = attend_heads ∧
        (∀ l ∈ net.key_extractors, l.outF = hidden_dim / attend_heads) ∧
        (∀ l ∈ net.selector_extractors, l.outF = hidden_dim / attend_heads) ∧
        (∀ l ∈ net.value_extractors, l.outF = hidden_dim / attend_heads)) := by
  have hne : attend_heads ≠ 0 := Nat.pos_iff_ne_zero.mp hpos
  have hmain : ∀ h : attend_heads ∣ hidden_dim,
      ∃ net, AttentionCritic.init W B sa_sizes hidden_dim norm_in attend_heads = .ok net ∧
        net.key_extractors.length = attend_heads ∧
        net.selector_extractors.length = attend_heads ∧
        net.value_extractors.length = attend_heads ∧
        (∀ l ∈ net.key_extractors, l.outF = hidden_dim / attend_heads) ∧
        (∀ l ∈ net.selector_extractors, l.outF = hidden_dim / attend_heads) ∧
        (∀ l ∈ net.value_extractors, l.outF = hidden_dim / attend_heads) := by
    intro hdvd
    have hmod : hidden_dim % attend_heads = 0 := Nat.dvd_iff_mod_eq_zero.mp hdvd
    have hok : AttentionCritic.init W B sa_sizes hidden_dim norm_in attend_heads = .ok
        { sa_sizes := sa_sizes
          hidden_dim := hidden_dim
          norm_in := norm_in
          attend_heads := attend_heads
          critic_encoders := sa_sizes.enum.map (fun p =>
            mkLinear W B (4 * p.1) (p.2.1 + p.2.2) hidden_dim true)
          critics := sa_sizes.enum.map (fun p =>
            (mkLinear W B (4 * p.1 + 1) (2 * hidden_dim) hidden_dim true,
             mkLinear W B (4 * p.1 + 2) hidden_dim p.2.2 true))
          state_encoders := sa_sizes.enum.map (fun p =>
            mkLinear W B (4 * p.1 + 3) p.2.1 hidden_dim true)
          key_extractors := (List.range attend_heads).map (fun i =>
            mkLinear W B (4 * sa_sizes.length + 3 * i) hidden_dim
              (hidden_dim / attend_heads) false)
          selector_extractors := (List.range attend_heads).map (fun i =>
            mkLinear W B (4 * sa_sizes.length + 3 * i + 1) hidden_dim
              (hidden_dim / attend_heads) false)
          value_extractors := (List.range attend_heads).map (fun i =>
            mkLinear W B (4 * sa_sizes.length + 3 * i + 2) hidden_dim
              (hidden_dim / attend_heads) true) } := by
      simp only [AttentionCritic.init, pymod, if_neg hne, except_ok_bind, hmod]
      simp
    refine ⟨_, hok, ?_, ?_, ?_, ?_, ?_, ?_⟩
    · simp
    · simp
    · simp
    · intro l hl
      simp only [List.mem_map] at hl
      obtain ⟨i, -, rfl⟩ := hl
      rfl
    · intro l hl
      simp only [List.mem_map] at hl
      obtain ⟨i, -, rfl⟩ := hl
      rfl
    · intro l hl
      simp only [List.mem_map] at hl
      obtain ⟨i, -, rfl⟩ := hl
      rfl
  constructor
  · constructor
    · intro herr
      intro hdvd
      obtain ⟨net, hok, -⟩ := hmain hdvd
      rw [hok] at herr
      exact Except.noConfusion herr
    · intro hdvd
      have hmod : hidden_dim % attend_heads ≠ 0 := fun hc =>
        hdvd (Nat.dvd_iff_mod_eq_zero.mpr hc)
      simp [AttentionCritic.init, pymod, if_neg hne, except_ok_bind, hmod]
  · exact hmain

/-- A closed instance of the C7 theorem at `hidden_dim=32`,
`attend_heads=4`. -/
theorem claim_c7_witness :
    0 < 4 ∧
    (((AttentionCritic.init W0 B0 acSizes3 32 true 4 = .error .assertionError) ↔
        ¬ ((4 : ℕ) ∣ 32)) ∧
     ((4 : ℕ) ∣ 32 →
      ∃ net, AttentionCritic.init W0 B0 acSizes3 32 true 4 = .ok net ∧
        net.key_extractors.length = 4 ∧
        net.selector_extractors.length = 4 ∧
        net.value_extractors.length = 4 ∧
        (∀ l ∈ net.key_extractors, l.outF = 32 / 4) ∧
        (∀ l ∈ net.selector_extractors, l.outF = 32 / 4) ∧
        (∀ l ∈ net.value_extractors, l.outF = 32 / 4))) :=
  ⟨by decide, claim_c7_init_assert_divisibility W0 B0 acSizes3 32 true 4 (by decide)⟩

/-- C8: constructing a `SelectiveAttentionNetwork` or an
`AttentionNetwork` raises an assertion error whenever `widths` and
`hidden_layers` have different lengths; with matching lengths and
`selector_depth ≥ 1`, construction succeeds with exactly one strain per
entry of `widths`. -/
theorem claim_c8_strain_init_asserts (W : ℕ → ℕ → ℕ → ℚ) (B : ℕ → ℕ → ℚ)
    (input_dim output_dim : ℕ) (widths hidden_layers : List ℕ)
    (selector_width selector_depth : ℕ) :
    (widths.length ≠ hidden_layers.length →
      SelectiveAttentionNetwork.init W B input_dim output_dim widths hidden_layers
          selector_width selector_depth = .error .assertionError ∧
      AttentionNetwork.init W B input_dim output_dim widths hidden_layers
          selector_width selector_depth = .error .assertionError) ∧
    (widths.length = hidden_layers.length → 1 ≤ selector_depth →
      (∃ n, SelectiveAttentionNetwork.init W B input_dim output_dim widths hidden_layers
          selector_width selector_depth = .ok n ∧ n.strains.length = widths.length) ∧
      (∃ n, AttentionNetwork.init W B input_dim output_dim widths hidden_layers
          selector_width selector_depth = .ok n ∧ n.strains.length = widths.length)) := by
  constructor
  · intro hne
    by_cases hd : 1 ≤ selector_depth
    · constructor
      · simp [SelectiveAttentionNetwork.init, hd, hne]
      · simp [AttentionNetwork.init, hd, hne]
    · constructor
      · simp [SelectiveAttentionNetwork.init, hd]
      · simp [AttentionNetwork.init, hd]
  · intro heq hd
    have hlen : ((widths.zip hidden_layers).enum.map (fun p =>
        mkStrain W B p.1 input_dim p.2.1 output_dim p.2.2)).length = widths.length := by
      simp [List.length_map, List.enum_length, List.length_zip, heq]
    constructor
    · refine ⟨{ input_dim := input_dim
                output_dim := output_dim
                strains := (widths.zip hidden_layers).enum.map (fun p =>
                  mkStrain W B p.1 input_dim p.2.1 output_dim p.2.2)
                selector_input_dim := input_dim + output_dim * widths.length
                selector_output_dim := widths.length
                selector :=
                  [mkLinear W B 900000 (input_dim + output_dim * widths.length)
                    (input_dim + output_dim * widths.length) true] ++
                    (List.range (selector_depth - 1)).map (fun j =>
                      mkLinear W B (900001 + j) (input_dim + output_dim * widths.length)
                        (input_dim + output_dim * widths.length) true) ++
                    [mkLinear W B (900000 + selector_depth)
                      (input_dim + output_dim * widths.length) widths.length true] }, ?_, ?_⟩
      · simp [SelectiveAttentionNetwork.init, hd, heq]
      · exact hlen
    · refine ⟨{ input_dim := input_dim
                output_dim := output_dim
                strains := (widths.zip hidden_layers).enum.map (fun p =>
                  mkStrain W B p.1 input_dim p.2.1 output_dim p.2.2) }, ?_, ?_⟩
      · simp [AttentionNetwork.init, hd, heq]
      · exact hlen

/-- A closed instance of the C8 theorem at `widths=[4,8]`,
`hidden_layers=[2,3]`, `selector_depth=1`. -/
theorem claim_c8_witness :
    (([4, 8] : List ℕ).length ≠ ([2] : List ℕ).length →
      SelectiveAttentionNetwork.init W0 B0 3 2 [4, 8] [2] 5 1 = .error .assertionError ∧
      AttentionNetwork.init W0 B0 3 2 [4, 8] [2] 5 1 = .error .assertionError) ∧
    (([4, 8] : List ℕ).length = ([2] : List ℕ).length → 1 ≤ 1 →
      (∃ n, SelectiveAttentionNetwork.init W0 B0 3 2 [4, 8] [2] 5 1 = .ok n ∧
        n.strains.length = ([4, 8] : List ℕ).length) ∧
      (∃ n, AttentionNetwork.init W0 B0 3 2 [4, 8] [2] 5 1 = .ok n ∧
        n.strains.length = ([4, 8] : List ℕ).length)) :=
  claim_c8_strain_init_asserts W0 B0 3 2 [4, 8] [2] 5 1

/-- C4 (evaluation at the failing input): on a freshly constructed
three-agent critic, `forward` with the valid agent subset `agents=[1]`
fails — the selector comprehension of source line 118 filters the
positions of the already-subset `s_encodings` by membership in `agents`,
leaving no selectors, so no attended values are produced and the critic
receives an input of width `hidden_dim` where its first layer expects
`2 * hidden_dim` — while the same call with the initial segment
`agents=[0,1,2]` succeeds.  The failure is structural: it does not
depend on the values of the exponential/square-root stand-ins or of the
parameters. -/
theorem claim_c4_selector_filter_failure :
    (AttentionCritic.init W0 B0 acSizes3 2 false 1).isOk = true ∧
    (acNet3.forward oneFn oneFn acInps3 (some [1]) true false false false).isNone = true ∧
    (acNet3.forward oneFn oneFn acInps3 none true false false false).isSome = true := by
  refine ⟨?_, ?_, ?_⟩ <;> with_unfolding_all rfl

/-- C10: `scale_shared_grads` multiplies the gradient of every parameter
of the shared modules (key, selector and value extractors and the critic
encoders) by exactly `1 / nagents` and leaves every parameter value and
the gradients of the non-shared parameters (state encoders, per-agent
critic heads) unchanged. -/
theorem claim_c10_scale_shared_grads (st : ACParams) (hpos : 0 < st.nagents) :
    st.scale_shared_grads.nagents = st.nagents ∧
    st.scale_shared_grads.params.length = st.params.length ∧
    (∀ i p, st.params.get? i = some p →
      ∃ p2, st.scale_shared_grads.params.get? i = some p2 ∧
        p2.tag = p.tag ∧ p2.val = p.val ∧
        (sharedTag p.tag = true → p2.grad = p.grad.map (fun g => g * (1 / (st.nagents : ℚ)))) ∧
        (sharedTag p.tag = false → p2.grad = p.grad)) := by
  refine ⟨rfl, by simp [ACParams.scale_shared_grads], ?_⟩
  intro i p hp
  have hmap : st.scale_shared_grads.params.get? i = some (if sharedTag p.tag then
      { p with grad := p.grad.map (fun g => g * (1 / (st.nagents : ℚ))) } else p) := by
    simp only [ACParams.scale_shared_grads, List.get?_map, hp, Option.map_some']
  by_cases hsh : sharedTag p.tag = true
  · rw [if_pos hsh] at hmap
    exact ⟨_, hmap, rfl, rfl, fun _ => rfl, fun hc => absurd hsh (by simp [hc])⟩
  · rw [if_neg hsh] at hmap
    exact ⟨_, hmap, rfl, rfl, fun hc => absurd hc hsh, fun _ => rfl⟩

/-- A closed instance of the C10 theorem on a two-parameter state: the
shared key-extractor gradient is halved, the state-encoder parameter is
untouched. -/
theorem claim_c10_witness :
    0 < (ACParams.mk 2 [⟨ModuleTag.keyExt, [1], [2]⟩, ⟨ModuleTag.stateEnc, [3], [4]⟩]).nagents ∧
    ((ACParams.mk 2 [⟨ModuleTag.keyExt, [1], [2]⟩,
        ⟨ModuleTag.stateEnc, [3], [4]⟩]).scale_shared_grads.nagents = 2 ∧
      (ACParams.mk 2 [⟨ModuleTag.keyExt, [1], [2]⟩,
        ⟨ModuleTag.stateEnc, [3], [4]⟩]).scale_shared_grads.params.length = 2 ∧
      (∀ i p, (ACParams.mk 2 [⟨ModuleTag.keyExt, [1], [2]⟩,
          ⟨ModuleTag.stateEnc, [3], [4]⟩]).params.get? i = some p →
        ∃ p2, (ACParams.mk 2 [⟨ModuleTag.keyExt, [1], [2]⟩,
            ⟨ModuleTag.stateEnc, [3], [4]⟩]).scale_shared_grads.params.get? i = some p2 ∧
          p2.tag = p.tag ∧ p2.val = p.val ∧
          (sharedTag p.tag = true → p2.grad = p.grad.map (fun g => g * (1 / (2 : ℚ)))) ∧
          (sharedTag p.tag = false → p2.grad = p.grad))) := by
  refine ⟨by decide, ?_⟩
  have h := claim_c10_scale_shared_grads
    (ACParams.mk 2 [⟨ModuleTag.keyExt, [1], [2]⟩, ⟨ModuleTag.stateEnc, [3], [4]⟩]) (by decide)
  exact h

theorem zipWith_add_getD (ra rb : List ℚ) (h : ra.length = rb.length) (j : ℕ) :
    (List.zipWith (· + ·) ra rb).getD j 0 = ra.getD j 0 + rb.getD j 0 := by
  induction ra generalizing rb j with
  | nil =>
    have hrb : rb = [] := List.length_eq_zero.mp h.symm
    subst hrb
    simp
  | cons x xs ih =>
    cases rb with
    | nil => simp at h
    | cons y ys =>
      cases j with
      | zero => simp
      | succ k =>
        simp only [List.zipWith_cons_cons, List.getD_cons_succ]
        exact ih ys (by simpa using h) k

theorem sameShape_iff (a b : Mat) :
    sameShape a b = true ↔ a.map List.length = b.map List.length := by
  simp [sameShape]

theorem addMat_getD (a b : Mat) (h : sameShape a b = true) (i j : ℕ) :
    ((addMat a b).getD i []).getD j 0 = (a.getD i []).getD j 0 + (b.getD i []).getD j 0 := by
  rw [sameShape_iff] at h
  induction a generalizing b i with
  | nil =>
    have hb : b = [] := by
      have h2 : List.map List.length b = [] := by simpa using h.symm
      exact List.map_eq_nil.mp h2
    subst hb
    simp [addMat]
  | cons ra ta ih =>
    cases b with
    | nil => simp at h
    | cons rb tb =>
      simp only [List.map_cons, List.cons.injEq] at h
      cases i with
      | zero =>
        simp only [addMat, List.zipWith_cons_cons, List.getD_cons_zero]
        exact zipWith_add_getD ra rb h.1 j
      | succ k =>
        simp only [addMat, List.zipWith_cons_cons, List.getD_cons_succ]
        exact ih tb h.2 k

theorem addMat_shape (a b : Mat) (h : sameShape a b = true) :
    (addMat a b).map List.length = a.map List.length := by
  rw [sameShape_iff] at h
  induction a generalizing b with
  | nil => simp [addMat]
  | cons ra ta ih =>
    cases b with
    | nil => simp at h
    | cons rb tb =>
      simp only [List.map_cons, List.cons.injEq] at h
      simp only [addMat, List.zipWith_cons_cons, List.map_cons, List.cons.injEq]
      constructor
      · simp [h.1, Nat.min_self]
      · exact ih tb h.2

theorem foldl_addMat_getD (rest : List Mat) : ∀ (m : Mat),
    (∀ x ∈ rest, sameShape m x = true) → ∀ i j,
    ((rest.foldl addMat m).getD i []).getD j 0 =
      (m.getD i []).getD j 0 + (rest.map (fun x => (x.getD i []).getD j 0)).sum := by
  induction rest with
  | nil => intro m _ i j; simp
  | cons y ys ih =>
    intro m hx i j
    have hmy : sameShape m y = true := hx y (List.mem_cons_self y ys)
    have hys : ∀ x ∈ ys, sameShape (addMat m y) x = true := by
      intro x hxx
      rw [sameShape_iff, addMat_shape m y hmy]
      exact (sameShape_iff m x).mp (hx x (List.mem_cons_of_mem y hxx))
    rw [List.foldl_cons, ih (addMat m y) hys i j, addMat_getD m y hmy i j]
    simp [add_assoc]

theorem stackSum_getD (ms : List Mat) (out : Mat) (h : stackSum ms = some out) (i j : ℕ) :
    (out.getD i []).getD j 0 = (ms.map (fun x => (x.getD i []).getD j 0)).sum := by
  cases ms with
  | nil => simp [stackSum] at h
  | cons m rest =>
    simp only [stackSum] at h
    by_cases hall : rest.all (fun m2 => sameShape m m2) = true
    · rw [if_pos hall] at h
      have hout := Option.some.inj h
      subst hout
      rw [foldl_addMat_getD rest m (fun x hx => (List.all_eq_true.mp hall) x hx) i j]
      simp
    · rw [if_neg hall] at h
      exact absurd h (by simp)

/-- C9: `AttentionNetwork.forward` combines its strains by sum — when
the strain outputs and forward value exist, every entry of the output is
the sum over the strains of that strain's entry (each strain applies
`ReLU` after every layer except the last, by definition of
`strainOuts`), with no selector weighting. -/
theorem claim_c9_strain_sum (net : AttentionNetwork) (input : Mat) (souts : List Mat)
    (out : Mat) (h1 : net.strainOuts input = some souts)
    (h2 : net.forward input = some out) :
    ∀ i j, (out.getD i []).getD j 0 = (souts.map (fun m => (m.getD i []).getD j 0)).sum := by
  simp only [AttentionNetwork.forward] at h2
  rw [h1] at h2
  have h3 : stackSum souts = some out := h2
  intro i j
  exact stackSum_getD souts out h3 i j

/-- A closed instance of the C9 theorem on a two-strain network. -/
theorem claim_c9_witness :
    anNet9.strainOuts [[3]] = some [[[0]], [[0]]] ∧
    anNet9.forward [[3]] = some [[0]] ∧
    (∀ i j, (([[(0 : ℚ)]] : Mat).getD i []).getD j 0 =
      (([[[0]], [[0]]] : List Mat).map (fun m => (m.getD i []).getD j 0)).sum) :=
  ⟨by with_unfolding_all rfl, by with_unfolding_all rfl,
   claim_c9_strain_sum anNet9 [[3]] [[[0]], [[0]]] [[0]]
     (by with_unfolding_all rfl) (by with_unfolding_all rfl)⟩

theorem linear_apply_ok (l : Linear) (m : Mat) (h : RowsW m l.inF) :
    ∃ out, l.apply m = some out ∧ out.length = m.length ∧ RowsW out l.outF := by
  have hall : m.all (fun r => decide (r.length = l.inF)) = true := by
    rw [List.all_eq_true]
    intro r hr
    simp [h r hr]
  refine ⟨m.map (fun r =>
      (List.range l.outF).map (fun o =>
        dot ((List.range l.inF).map (fun i => l.w o i)) r +
          (if l.hasBias then l.b o else 0))), ?_, ?_, ?_⟩
  · simp only [Linear.apply]
    rw [if_pos hall]
  · simp
  · intro r hr
    simp only [List.mem_map] at hr
    obtain ⟨r0, -, rfl⟩ := hr
    simp

theorem rowsW_map_act (act : ℚ → ℚ) (m : Mat) (k : ℕ) (h : RowsW m k) :
    RowsW (m.map (fun r => r.map act)) k := by
  intro r hr
  simp only [List.mem_map] at hr
  obtain ⟨r0, hr0, rfl⟩ := hr
  simp [h r0 hr0]

theorem hiddenPass_uniform (act : ℚ → ℚ) (layers : List Linear) (w : ℕ)
    (hl : ∀ l ∈ layers, l.inF = w ∧ l.outF = w) :
    ∀ m, RowsW m w →
      ∃ out, hiddenPass act layers m = some out ∧ out.length = m.length ∧ RowsW out w := by
  induction layers with
  | nil => intro m hm; exact ⟨m, rfl, rfl, hm⟩
  | cons l ls ih =>
    intro m hm
    obtain ⟨hin, hout⟩ := hl l (List.mem_cons_self l ls)
    obtain ⟨o1, ho1, hlen1, hw1⟩ := linear_apply_ok l m (by rw [hin]; exact hm)
    obtain ⟨o2, ho2, hlen2, hw2⟩ :=
      ih (fun x hx => hl x (List.mem_cons_of_mem l hx)) (o1.map (fun r => r.map act))
        (rowsW_map_act act o1 w (by rw [← hout]; exact hw1))
    refine ⟨o2, ?_, ?_, hw2⟩
    · simp only [hiddenPass, List.foldlM_cons] at ho2 ⊢
      rw [ho1]
      have hred : ((some o1).map (fun mm => mm.map (fun r => r.map act)) >>=
          fun x => ls.foldlM (fun x l =>
            (l.apply x).map (fun mm => mm.map (fun r => r.map act))) x) =
          ls.foldlM (fun x l =>
            (l.apply x).map (fun mm => mm.map (fun r => r.map act)))
            (o1.map (fun r => r.map act)) := rfl
      rw [hred]
      exact ho2
    · rw [hlen2]
      simp [hlen1]

theorem sandwich_apply_ok (act : ℚ → ℚ) (first lastL : Linear) (mids : List Linear)
    (a w : ℕ) (hf1 : first.inF = a) (hf2 : first.outF = w)
    (hmids : ∀ l ∈ mids, l.inF = w ∧ l.outF = w) (hlin : lastL.inF = w) :
    ∀ m, RowsW m a →
      ∃ out, strainApply act (first :: (mids ++ [lastL])) m = some out ∧
        out.length = m.length ∧ RowsW out lastL.outF := by
  intro m hm0
  have hsplit : first :: (mids ++ [lastL]) = (first :: mids) ++ [lastL] := by simp
  have hdrop : (first :: (mids ++ [lastL])).dropLast = first :: mids := by
    rw [hsplit]; exact List.dropLast_concat
  have hlast : (first :: (mids ++ [lastL])).getLast? = some lastL := by
    rw [hsplit]; exact List.getLast?_concat _
  obtain ⟨o1, ho1, hlen1, hw1⟩ := linear_apply_ok first m (by rw [hf1]; exact hm0)
  obtain ⟨o2, ho2, hlen2, hw2⟩ :=
    hiddenPass_uniform act mids w hmids (o1.map (fun r => r.map act))
      (rowsW_map_act act o1 w (by rw [← hf2]; exact hw1))
  obtain ⟨o3, ho3, hlen3, hw3⟩ := linear_apply_ok lastL o2 (by rw [hlin]; exact hw2)
  have hh : hiddenPass act (first :: mids) m = some o2 := by
    simp only [hiddenPass, List.foldlM_cons] at ho2 ⊢
    rw [ho1]
    have hred : ((some o1).map (fun mm => mm.map (fun r => r.map act)) >>=
        fun x => mids.foldlM (fun x l =>
          (l.apply x).map (fun mm => mm.map (fun r => r.map act))) x) =
        mids.foldlM (fun x l =>
          (l.apply x).map (fun mm => mm.map (fun r => r.map act)))
          (o1.map (fun r => r.map act)) := rfl
    rw [hred]
    exact ho2
  refine ⟨o3, ?_, ?_, hw3⟩
  · simp only [strainApply, hdrop, hlast, hh]
    exact ho3
  · rw [hlen3, hlen2]
    simp [hlen1]

theorem mkStrain_apply_ok (W : ℕ → ℕ → ℕ → ℚ) (B : ℕ → ℕ → ℚ) (i iD w oD d : ℕ)
    (m : Mat) (h : RowsW m iD) :
    ∃ out, strainApply relu (mkStrain W B i iD w oD d) m = some out ∧
      out.length = m.length ∧ RowsW out oD := by
  have hform : mkStrain W B i iD w oD d =
      mkLinear W B (1000 * i) iD w true ::
        (((List.range (d - 1)).map (fun j => mkLinear W B (1000 * i + 1 + j) w w true)) ++
          [mkLinear W B (1000 * i + d) w oD true]) := by
    simp [mkStrain]
  rw [hform]
  exact sandwich_apply_ok relu _ _ _ iD w rfl rfl
    (by
      intro l hl
      simp only [List.mem_map] at hl
      obtain ⟨j, -, rfl⟩ := hl
      exact ⟨rfl, rfl⟩)
    rfl m h

theorem mapM_ok_of_all {α β : Type} (f : α → Option β) (l : List α) (Q : β → Prop)
    (h : ∀ a ∈ l, ∃ b, f a = some b ∧ Q b) :
    ∃ bs, l.mapM f = some bs ∧ bs.length = l.length ∧ ∀ b ∈ bs, Q b := by
  induction l with
  | nil => exact ⟨[], rfl, rfl, by simp⟩
  | cons a t ih =>
    obtain ⟨b, hb, hQ⟩ := h a (List.mem_cons_self a t)
    obtain ⟨bs, hbs, hlen, hQs⟩ := ih (fun x hx => h x (List.mem_cons_of_mem a hx))
    refine ⟨b :: bs, ?_, by simp [hlen], ?_⟩
    · rw [List.mapM_cons, hb, hbs]
      rfl
    · intro x hx
      cases List.mem_cons.mp hx with
      | inl hxb => exact hxb ▸ hQ
      | inr hxs => exact hQs x hxs

theorem headD_length_of_rowsW (m : Mat) (w : ℕ) (hne : m ≠ []) (h : RowsW m w) :
    (m.headD []).length = w := by
  cases m with
  | nil => exact absurd rfl hne
  | cons r t => exact h r (List.mem_cons_self r t)

theorem getD_mem {α : Type} (l : List α) (i : ℕ) (d : α) (h : i < l.length) :
    l.getD i d ∈ l := by
  induction l generalizing i with
  | nil => simp at h
  | cons a t ih =>
    cases i with
    | zero => simp
    | succ k =>
      simp only [List.getD_cons_succ]
      exact List.mem_cons_of_mem a (ih k (by simpa using h))

theorem range_map_getD_zero {α : Type} (n : ℕ) (f : ℕ → α) (d : α) (h : n ≠ 0) :
    ((List.range n).map f).getD 0 d = f 0 := by
  obtain ⟨k, rfl⟩ := Nat.exists_eq_succ_of_ne_zero h
  rw [List.range_succ_eq_map]
  simp

theorem map_getD_of_lt {α β : Type} (f : α → β) (l : List α) (i : ℕ) (d : β) (d2 : α)
    (h : i < l.length) : (l.map f).getD i d = f (l.getD i d2) := by
  induction l generalizing i with
  | nil => simp at h
  | cons a t ih =>
    cases i with
    | zero => simp
    | succ k =>
      simp only [List.map_cons, List.getD_cons_succ]
      exact ih k (by simpa using h)

theorem forall₂_rowsW_replicate (l : List Mat) (c : ℕ) (h : ∀ s ∈ l, RowsW s c) :
    List.Forall₂ (fun m w => RowsW m w) l (List.replicate l.length c) := by
  induction l with
  | nil => exact List.Forall₂.nil
  | cons s t ih =>
    simp only [List.length_cons, List.replicate_succ]
    exact List.Forall₂.cons (h s (List.mem_cons_self s t))
      (ih (fun x hx => h x (List.mem_cons_of_mem s hx)))

theorem forall₂_map_getD_length : ∀ (ms : List Mat) (ws : List ℕ) (b i : ℕ), i < b →
    (∀ m ∈ ms, m.length = b) →
    List.Forall₂ (fun m w => RowsW m w) ms ws →
    ms.map (fun mm => (mm.getD i []).length) = ws := by
  intro ms
  induction ms with
  | nil =>
    intro ws b i _ _ hw
    cases hw
    rfl
  | cons m rest ih =>
    intro ws b i hi hrows hw
    cases hw with
    | cons hmw htail =>
      simp only [List.map_cons, List.cons.injEq]
      refine ⟨?_, ih _ b i hi (fun x hx => hrows x (List.mem_cons_of_mem m hx)) htail⟩
      exact hmw _ (getD_mem m i [] (by rw [hrows m (List.mem_cons_self m rest)]; exact hi))

theorem cat1_shape (ms : List Mat) (ws : List ℕ) (b : ℕ) (hne : ms ≠ [])
    (hrows : ∀ m ∈ ms, m.length = b)
    (hw : List.Forall₂ (fun m w => RowsW m w) ms ws) :
    (cat1 ms).length = b ∧ RowsW (cat1 ms) ws.sum := by
  cases ms with
  | nil => exact absurd rfl hne
  | cons m rest =>
    constructor
    · simp [cat1, hrows m (List.mem_cons_self m rest)]
    · intro r hr
      simp only [cat1, List.mem_map] at hr
      obtain ⟨i, hi, rfl⟩ := hr
      have hib : i < b := by
        rw [← hrows m (List.mem_cons_self m rest)]
        simpa using hi
      rw [List.length_flatten, List.map_map]
      have hmap := forall₂_map_getD_length (m :: rest) ws b i hib hrows hw
      rw [show (List.length ∘ fun mm : Mat => mm.getD i []) =
        (fun mm : Mat => (mm.getD i []).length) from rfl]
      rw [hmap]

theorem option_some_bind {α β : Type} (a : α) (f : α → Option β) : (some a >>= f) = f a := rfl

theorem option_none_bind {α β : Type} (f : α → Option β) : ((none : Option α) >>= f) = none := rfl

/-- C5: `SelectiveAttentionNetwork.forward` repeats each selector score
column to width exactly 5 before multiplying it elementwise with the
strain output, so for every network built with an `output_dim` that is
broadcast-incompatible with 5 (neither 5 nor 1) and any well-shaped
non-empty input, the scored-output product — and with it the whole
forward pass — fails. -/
theorem claim_c5_repeat5_incompatible (E : ℚ → ℚ) (W : ℕ → ℕ → ℕ → ℚ) (B : ℕ → ℕ → ℚ)
    (iD oD : ℕ) (widths hls : List ℕ) (sw sd : ℕ)
    (net : SelectiveAttentionNetwork) (input : Mat)
    (hinit : SelectiveAttentionNetwork.init W B iD oD widths hls sw sd = .ok net)
    (hwne : widths ≠ []) (hin : RowsW input iD) (hbne : input ≠ [])
    (h1 : oD ≠ 1) (h5 : oD ≠ 5) :
    net.scoredOuts E input = none ∧ net.forward E input = none := by
  simp only [SelectiveAttentionNetwork.init] at hinit
  split at hinit
  · simp at hinit
  · split at hinit
    · simp at hinit
    · rename_i hsd hlen
      have heq : widths.length = hls.length := not_not.mp hlen
      have hnet := Except.ok.inj hinit
      subst hnet
      have hbpos : 0 < input.length := List.length_pos.mpr hbne
      have hstr : ∀ st ∈ (widths.zip hls).enum.map
          (fun p => mkStrain W B p.1 iD p.2.1 oD p.2.2),
          ∃ out, strainApply relu st input = some out ∧
            (out.length = input.length ∧ RowsW out oD) := by
        intro st hst
        simp only [List.mem_map] at hst
        obtain ⟨p, -, rfl⟩ := hst
        obtain ⟨out, ha, hb, hc⟩ := mkStrain_apply_ok W B p.1 iD p.2.1 oD p.2.2 input hin
        exact ⟨out, ha, hb, hc⟩
      obtain ⟨souts, hsouts, hslen, hsQ⟩ := mapM_ok_of_all _ _ _ hstr
      have hk : souts.length = widths.length := by
        rw [hslen]
        simp [List.enum_length, List.length_zip, ← heq]
      have hkpos : 0 < souts.length := by
        rw [hk]
        exact List.length_pos.mpr hwne
      have hsoutsne : souts ≠ [] := List.length_pos.mp hkpos
      have hstrOuts : SelectiveAttentionNetwork.strainOuts
          { input_dim := iD, output_dim := oD,
            strains := (widths.zip hls).enum.map
              (fun p => mkStrain W B p.1 iD p.2.1 oD p.2.2),
            selector_input_dim := iD + oD * widths.length,
            selector_output_dim := widths.length,
            selector := [mkLinear W B 900000 (iD + oD * widths.length)
                (iD + oD * widths.length) true] ++
              (List.range (sd - 1)).map (fun j =>
                mkLinear W B (900001 + j) (iD + oD * widths.length)
                  (iD + oD * widths.length) true) ++
              [mkLinear W B (900000 + sd) (iD + oD * widths.length) widths.length true] }
          input = some souts := hsouts
      have hcat := cat1_shape souts (List.replicate souts.length oD) input.length hsoutsne
        (fun s hs => (hsQ s hs).1) (forall₂_rowsW_replicate souts oD (fun s hs => (hsQ s hs).2))
      have hwidth1 : (List.replicate souts.length oD).sum = souts.length * oD := by
        rw [List.sum_replicate]
        simp [smul_eq_mul]
      obtain ⟨s0, srest, hs0⟩ : ∃ a l, souts = a :: l := by
        cases souts with
        | nil => exact absurd rfl hsoutsne
        | cons a l => exact ⟨a, l, rfl⟩
      have hselIn : SelectiveAttentionNetwork.selectorIn
          { input_dim := iD, output_dim := oD,
            strains := (widths.zip hls).enum.map
              (fun p => mkStrain W B p.1 iD p.2.1 oD p.2.2),
            selector_input_dim := iD + oD * widths.length,
            selector_output_dim := widths.length,
            selector := [mkLinear W B 900000 (iD + oD * widths.length)
                (iD + oD * widths.length) true] ++
              (List.range (sd - 1)).map (fun j =>
                mkLinear W B (900001 + j) (iD + oD * widths.length)
                  (iD + oD * widths.length) true) ++
              [mkLinear W B (900000 + sd) (iD + oD * widths.length) widths.length true] }
          input = some (cat1 [cat1 souts, input]) := by
        simp only [SelectiveAttentionNetwork.selectorIn]
        rw [hstrOuts, hs0]
        rfl
      have hcat2 := cat1_shape [cat1 souts, input] [souts.length * oD, iD] input.length
        (by simp)
        (by
          intro m hm
          simp only [List.mem_cons, List.not_mem_nil, or_false] at hm
          rcases hm with rfl | rfl
          · exact hcat.1
          · rfl)
        (List.Forall₂.cons (hwidth1 ▸ hcat.2) (List.Forall₂.cons hin List.Forall₂.nil))
      have hsin : souts.length * oD + iD = iD + oD * widths.length := by
        rw [hk]
        ring
      have hsimpl : ([souts.length * oD, iD] : List ℕ).sum = souts.length * oD + iD := by
        simp
      obtain ⟨x, hx, hxlen, hxw⟩ := sandwich_apply_ok relu
        (mkLinear W B 900000 (iD + oD * widths.length) (iD + oD * widths.length) true)
        (mkLinear W B (900000 + sd) (iD + oD * widths.length) widths.length true)
        ((List.range (sd - 1)).map (fun j =>
          mkLinear W B (900001 + j) (iD + oD * widths.length)
            (iD + oD * widths.length) true))
        (iD + oD * widths.length) (iD + oD * widths.length) rfl rfl
        (by
          intro l hl
          simp only [List.mem_map] at hl
          obtain ⟨j, -, rfl⟩ := hl
          exact ⟨rfl, rfl⟩)
        rfl (cat1 [cat1 souts, input])
        (by
          intro r hr
          rw [← hsin, ← hsimpl]
          exact hcat2.2 r hr)
      have hselLog : SelectiveAttentionNetwork.selectorLogits
          { input_dim := iD, output_dim := oD,
            strains := (widths.zip hls).enum.map
              (fun p => mkStrain W B p.1 iD p.2.1 oD p.2.2),
            selector_input_dim := iD + oD * widths.length,
            selector_output_dim := widths.length,
            selector := [mkLinear W B 900000 (iD + oD * widths.length)
                (iD + oD * widths.length) true] ++
              (List.range (sd - 1)).map (fun j =>
                mkLinear W B (900001 + j) (iD + oD * widths.length)
                  (iD + oD * widths.length) true) ++
              [mkLinear W B (900000 + sd) (iD + oD * widths.length) widths.length true] }
          input = some x := by
        simp only [SelectiveAttentionNetwork.selectorLogits]
        rw [hselIn]
        exact hx
      have hscoresT : SelectiveAttentionNetwork.scoresT E
          { input_dim := iD, output_dim := oD,
            strains := (widths.zip hls).enum.map
              (fun p => mkStrain W B p.1 iD p.2.1 oD p.2.2),
            selector_input_dim := iD + oD * widths.length,
            selector_output_dim := widths.length,
            selector := [mkLinear W B 900000 (iD + oD * widths.length)
                (iD + oD * widths.length) true] ++
              (List.range (sd - 1)).map (fun j =>
                mkLinear W B (900001 + j) (iD + oD * widths.length)
                  (iD + oD * widths.length) true) ++
              [mkLinear W B (900000 + sd) (iD + oD * widths.length) widths.length true] }
          input = some ((transposeM x).map (softmaxL E)) := by
        simp only [SelectiveAttentionNetwork.scoresT]
        rw [hselLog]
        rfl
      have hxlen2 : x.length = input.length := hxlen.trans hcat2.1
      have hxne : x ≠ [] := List.length_pos.mp (by rw [hxlen2]; exact hbpos)
      have hk0 : widths.length ≠ 0 := fun hc => hwne (List.length_eq_zero.mp hc)
      have hxhead : (x.headD []).length = widths.length := headD_length_of_rowsW x _ hxne hxw
      have htrlen : (transposeM x).length = widths.length := by
        simp only [transposeM, List.length_map, List.length_range]
        exact hxhead
      have htr0 : (transposeM x).getD 0 [] = x.map (fun r => r.getD 0 0) := by
        simp only [transposeM, hxhead]
        exact range_map_getD_zero widths.length _ [] hk0
      have hst0 : (((transposeM x).map (softmaxL E)).getD 0 []) =
          softmaxL E (x.map (fun r => r.getD 0 0)) := by
        rw [map_getD_of_lt (softmaxL E) (transposeM x) 0 [] []
          (by rw [htrlen]; exact Nat.pos_of_ne_zero hk0), htr0]
      have hst0len : ((((transposeM x).map (softmaxL E)).getD 0 [])).length = input.length := by
        rw [hst0]
        simp [softmaxL, hxlen2]
      have hm1mem : souts.getD 0 [] ∈ souts := getD_mem souts 0 [] hkpos
      have hm1len : (souts.getD 0 []).length = input.length := (hsQ _ hm1mem).1
      have hm1w : RowsW (souts.getD 0 []) oD := (hsQ _ hm1mem).2
      have hm1ne : souts.getD 0 [] ≠ [] := List.length_pos.mp (by rw [hm1len]; exact hbpos)
      have hm1head : ((souts.getD 0 []).headD []).length = oD :=
        headD_length_of_rowsW _ oD hm1ne hm1w
      have hm2len : (repeat5 (((transposeM x).map (softmaxL E)).getD 0 [])).length =
          input.length := by
        simp only [repeat5, List.length_map]
        exact hst0len
      have hm2head : ((repeat5 (((transposeM x).map (softmaxL E)).getD 0 [])).headD
          []).length = 5 := by
        cases hcol : ((transposeM x).map (softmaxL E)).getD 0 [] with
        | nil =>
          rw [hcol] at hst0len
          simp only [List.length_nil] at hst0len
          omega
        | cons v vs =>
          simp only [repeat5, List.map_cons, List.headD_cons, List.length_replicate]
      have hfail : bcastMul (souts.getD 0 [])
          (repeat5 (((transposeM x).map (softmaxL E)).getD 0 [])) = none := by
        simp only [bcastMul, bcastOp]
        have hr : bcastDim (souts.getD 0 []).length
            (repeat5 (((transposeM x).map (softmaxL E)).getD 0 [])).length =
            some input.length := by
          rw [hm1len, hm2len]
          simp [bcastDim]
        have hc : bcastDim ((souts.getD 0 []).headD []).length
            ((repeat5 (((transposeM x).map (softmaxL E)).getD 0 [])).headD []).length =
            none := by
          rw [hm1head, hm2head]
          simp only [bcastDim]
          rw [if_neg h5, if_neg h1, if_neg (by decide)]
        simp only [hr, hc, option_some_bind, option_none_bind]
      have hscored : SelectiveAttentionNetwork.scoredOuts E
          { input_dim := iD, output_dim := oD,
            strains := (widths.zip hls).enum.map
              (fun p => mkStrain W B p.1 iD p.2.1 oD p.2.2),
            selector_input_dim := iD + oD * widths.length,
            selector_output_dim := widths.length,
            selector := [mkLinear W B 900000 (iD + oD * widths.length)
                (iD + oD * widths.length) true] ++
              (List.range (sd - 1)).map (fun j =>
                mkLinear W B (900001 + j) (iD + oD * widths.length)
                  (iD + oD * widths.length) true) ++
              [mkLinear W B (900000 + sd) (iD + oD * widths.length) widths.length true] }
          input = none := by
        simp only [SelectiveAttentionNetwork.scoredOuts]
        simp only [hstrOuts, hscoresT, option_some_bind]
        obtain ⟨k2, hk2⟩ := Nat.exists_eq_succ_of_ne_zero (Nat.pos_iff_ne_zero.mp hkpos)
        rw [hk2, List.range_succ_eq_map, List.mapM_cons]
        simp only [hfail, option_none_bind]
      refine ⟨hscored, ?_⟩
      simp only [SelectiveAttentionNetwork.forward]
      rw [hscored]
      rfl

/-- A closed instance of the C5 theorem: `output_dim = 2` is
incompatible with the width-5 repeated score, so the scored product and
the forward pass fail. -/
theorem claim_c5_witness :
    SelectiveAttentionNetwork.init W0 B0 1 2 [1] [1] 3 1 = .ok c5Net ∧
    ([1] : List ℕ) ≠ [] ∧ RowsW [[0]] 1 ∧ ([[0]] : Mat) ≠ [] ∧
    (2 : ℕ) ≠ 1 ∧ (2 : ℕ) ≠ 5 ∧
    (c5Net.scoredOuts oneFn [[0]] = none ∧ c5Net.forward oneFn [[0]] = none) :=
  ⟨by with_unfolding_all rfl, by decide,
   by
    intro r hr
    simp only [List.mem_singleton] at hr
    subst hr
    rfl,
   by decide, by decide, by decide,
   claim_c5_repeat5_incompatible oneFn W0 B0 1 2 [1] [1] 3 1 c5Net [[0]]
     (by with_unfolding_all rfl) (by decide)
     (by
       intro r hr
       simp only [List.mem_singleton] at hr
       subst hr
       rfl)
     (by decide) (by decide) (by decide)⟩

set_option maxRecDepth 8000 in
/-- C3 counterexample: in `SelectiveAttentionNetwork.forward` the
selector output activation is `nn.Softmax(dim=0)`, which normalises over
the batch dimension, not across the strains.  On a three-strain network
whose selector weights are all zero (so the selector logits vanish and
the softmax is uniform regardless of the exponential), with a batch of
two, the scores assigned to the strains of batch element 0 sum to `3/2`,
not 1. -/
theorem claim_c3_counterexample :
    (((SelectiveAttentionNetwork.scoresT oneFn c3Net c3In).getD []).map
      (fun col => col.getD 0 0)).sum = 3 / 2 ∧ ¬ ((3 : ℚ) / 2 = 1) := by
  constructor
  · with_unfolding_all rfl
  · norm_num

set_option maxRecDepth 8000 in
/-- The counterexample does not depend on the exponential surrogate: the
selector logits of `c3Net` at `c3In` are identically zero, so for every
positive exponential the scores are the uniform `1/2` per batch column
and each batch row still sums to `3/2` across the three strains. -/
theorem c3Net_scores_exp_independent (E : ℚ → ℚ) (hE : ExpPos E) :
    SelectiveAttentionNetwork.scoresT E c3Net c3In =
      some [[1 / 2, 1 / 2], [1 / 2, 1 / 2], [1 / 2, 1 / 2]] := by
  have hlog : SelectiveAttentionNetwork.selectorLogits c3Net c3In =
      some [[0, 0, 0], [0, 0, 0]] := by with_unfolding_all rfl
  simp only [SelectiveAttentionNetwork.scoresT, hlog, Option.map_some']
  have htr : transposeM [[0, 0, 0], [0, 0, 0]] = [[0, 0], [0, 0], [0, 0]] := by
    with_unfolding_all rfl
  rw [htr]
  have h0 := hE 0
  have h2 : E 0 / (E 0 + E 0) = 2⁻¹ := by
    rw [← two_mul, div_eq_iff (ne_of_gt (by linarith : (0 : ℚ) < 2 * E 0))]
    ring
  simp [softmaxL, h2]

/-- C3 (amended): the selector scores of
`SelectiveAttentionNetwork.forward` are a softmax over the batch
dimension (`nn.Softmax(dim=0)`): for every strain, the scores across the
batch elements are non-negative and sum to 1, and the output is the sum
over strains of each strain's output multiplied (with broadcasting) by
its score column repeated to width 5. -/
theorem claim_c3_amended_scores_softmax_dim0 (E : ℚ → ℚ)
    (net : SelectiveAttentionNetwork) (input x : Mat) (st : List (List ℚ))
    (hE : ExpPos E) (hx : net.selectorLogits input = some x) (hxne : x ≠ [])
    (hst : net.scoresT E input = some st) :
    (∀ col ∈ st, (∀ v ∈ col, 0 ≤ v) ∧ col.sum = 1) ∧
    (∀ outs, net.scoredOuts E input = some outs → net.forward E input = pySum outs) := by
  constructor
  · have hst2 : (transposeM x).map (softmaxL E) = st := by
      simp only [SelectiveAttentionNetwork.scoresT, hx, Option.map_some',
        Option.some.injEq] at hst
      exact hst
    subst hst2
    intro col hcol
    simp only [List.mem_map] at hcol
    obtain ⟨c, hc, rfl⟩ := hcol
    simp only [transposeM, List.mem_map] at hc
    obtain ⟨j, -, rfl⟩ := hc
    have hcne : x.map (fun r => r.getD j 0) ≠ [] := by
      simp only [ne_eq, List.map_eq_nil]
      exact hxne
    exact ⟨softmaxL_nonneg E hE _, softmaxL_sum_one E hE _ hcne⟩
  · intro outs houts
    simp only [SelectiveAttentionNetwork.forward, houts, option_some_bind]

set_option maxRecDepth 8000 in
/-- A closed instance of the amended C3 theorem at `c3Net`: each strain's
score column `[1/2, 1/2]` sums to 1 over the batch. -/
theorem claim_c3_witness :
    ExpPos oneFn ∧
    SelectiveAttentionNetwork.selectorLogits c3Net c3In = some [[0, 0, 0], [0, 0, 0]] ∧
    ([[0, 0, 0], [0, 0, 0]] : Mat) ≠ [] ∧
    SelectiveAttentionNetwork.scoresT oneFn c3Net c3In =
      some [[1 / 2, 1 / 2], [1 / 2, 1 / 2], [1 / 2, 1 / 2]] ∧
    ((∀ col ∈ ([[1 / 2, 1 / 2], [1 / 2, 1 / 2], [1 / 2, 1 / 2]] : List (List ℚ)),
        (∀ v ∈ col, 0 ≤ v) ∧ col.sum = 1) ∧
     (∀ outs, SelectiveAttentionNetwork.scoredOuts oneFn c3Net c3In = some outs →
       SelectiveAttentionNetwork.forward oneFn c3Net c3In = pySum outs)) :=
  ⟨fun _ => one_pos, by with_unfolding_all rfl, by decide, by with_unfolding_all rfl,
   claim_c3_amended_scores_softmax_dim0 oneFn c3Net c3In [[0, 0, 0], [0, 0, 0]]
     [[1 / 2, 1 / 2], [1 / 2, 1 / 2], [1 / 2, 1 / 2]] (fun _ => one_pos)
     (by with_unfolding_all rfl) (by decide) (by with_unfolding_all rfl)⟩

theorem except_bind_ok {ε α β : Type} (X : Except ε α) (g : α → Except ε β) (b : β)
    (h : (X >>= g) = .ok b) : ∃ a, X = .ok a ∧ g a = .ok b := by
  cases X with
  | error e =>
    rw [show ((Except.error e : Except ε α) >>= g) = Except.error e from rfl] at h
    exact absurd h (by simp)
  | ok a =>
    rw [except_ok_bind] at h
    exact ⟨a, rfl, h⟩

theorem zipWith_append_getD (u v : Mat) (r : ℕ) (hu : r < u.length) (hv : r < v.length) :
    (List.zipWith (· ++ ·) u v).getD r [] = u.getD r [] ++ v.getD r [] := by
  induction u generalizing v r with
  | nil => simp at hu
  | cons x xs ih =>
    cases v with
    | nil => simp at hv
    | cons y ys =>
      cases r with
      | zero => simp
      | succ k =>
        simp only [List.zipWith_cons_cons, List.getD_cons_succ]
        exact ih ys k (by simpa using hu) (by simpa using hv)

theorem zipWith_append_rowsW : ∀ (u v : Mat) (s a : ℕ), RowsW u s → RowsW v a →
    RowsW (List.zipWith (· ++ ·) u v) (s + a) := by
  intro u
  induction u with
  | nil => intro v s a _ _ r hr; simp at hr
  | cons x xs ih =>
    intro v s a h1 h2 r hr
    cases v with
    | nil => simp at hr
    | cons y ys =>
      simp only [List.zipWith_cons_cons, List.mem_cons] at hr
      rcases hr with rfl | hr
      · rw [List.length_append, h1 x (List.mem_cons_self x xs),
          h2 y (List.mem_cons_self y ys)]
      · exact ih ys s a (fun q hq => h1 q (List.mem_cons_of_mem x hq))
          (fun q hq => h2 q (List.mem_cons_of_mem y hq)) r hr

theorem rowsW_catPair (p : Mat × Mat) (s a : ℕ) (h1 : RowsW p.1 s) (h2 : RowsW p.2 a) :
    RowsW (catPair p) (s + a) :=
  zipWith_append_rowsW p.1 p.2 s a h1 h2

theorem forall₂_catPair (inps : List (Mat × Mat)) (sa : List (ℕ × ℕ)) (b : ℕ)
    (hF : List.Forall₂ (fun (p : Mat × Mat) (sz : ℕ × ℕ) =>
      p.1.length = b ∧ p.2.length = b ∧ RowsW p.1 sz.1 ∧ RowsW p.2 sz.2) inps sa) :
    List.Forall₂ (fun m w => RowsW m w) (inps.map catPair)
      (sa.map (fun sz => sz.1 + sz.2)) := by
  induction hF with
  | nil => exact List.Forall₂.nil
  | cons hp htail ih =>
    simp only [List.map_cons]
    exact List.Forall₂.cons (rowsW_catPair _ _ _ hp.2.2.1 hp.2.2.2) ih

theorem forall₂_mem_left {α β : Type} {R : α → β → Prop} {l1 : List α} {l2 : List β}
    (h : List.Forall₂ R l1 l2) : ∀ a ∈ l1, ∃ b, R a b := by
  induction h with
  | nil => intro a ha; simp at ha
  | cons hab htail ih =>
    intro a ha
    cases List.mem_cons.mp ha with
    | inl heq => exact heq ▸ ⟨_, hab⟩
    | inr hmem => exact ih a hmem

theorem catPair_length (p : Mat × Mat) (b : ℕ) (h1 : p.1.length = b) (h2 : p.2.length = b) :
    (catPair p).length = b := by
  simp [catPair, List.length_zipWith, h1, h2]

/-- C6: `SelectiveAttentionCritic.forward` feeds every requested agent's
critic the same joint input: the horizontal concatenation of all agents'
`(state, action)` pairs, of width `full_input_size`, i.e. the sum over
all agents of state size plus action size, independent of which agent's
Q is computed. -/
theorem claim_c6_joint_critic_input (E : ℚ → ℚ) (W : ℕ → ℕ → ℕ → ℚ) (B : ℕ → ℕ → ℚ)
    (sa_sizes : List (ℕ × ℕ)) (widths hls : List ℕ) (sw sd : ℕ) (ws : Bool)
    (net : SelectiveAttentionCritic) (inps : List (Mat × Mat)) (acts : List Mat) (b : ℕ)
    (hinit : SelectiveAttentionCritic.init W B sa_sizes widths hls sw sd ws = .ok net)
    (hbne : inps ≠ [])
    (hF : List.Forall₂ (fun (p : Mat × Mat) (sz : ℕ × ℕ) =>
      p.1.length = b ∧ p.2.length = b ∧ RowsW p.1 sz.1 ∧ RowsW p.2 sz.2) inps sa_sizes) :
    SelectiveAttentionCritic.criticIn (inps.map catPair) = some (cat1 (inps.map catPair)) ∧
    cat1 (inps.map catPair) = (List.range b).map (fun r =>
      (inps.map (fun p => p.1.getD r [] ++ p.2.getD r [])).flatten) ∧
    (cat1 (inps.map catPair)).length = b ∧
    RowsW (cat1 (inps.map catPair)) net.full_input_size ∧
    (∀ a_i rq raq rg, net.agentCalc E (inps.map catPair) acts rq raq rg a_i =
      net.agentRest E (cat1 (inps.map catPair)) acts rq raq rg a_i) := by
  simp only [SelectiveAttentionCritic.init] at hinit
  obtain ⟨critics, -, hok⟩ := except_bind_ok _ _ _ hinit
  have hnet := Except.ok.inj hok
  subst hnet
  obtain ⟨p0, rest, rfl⟩ : ∃ a l, inps = a :: l := by
    cases inps with
    | nil => exact absurd rfl hbne
    | cons a l => exact ⟨a, l, rfl⟩
  have hmemlen : ∀ p ∈ p0 :: rest, p.1.length = b ∧ p.2.length = b := by
    intro p hp
    obtain ⟨sz, hsz⟩ := forall₂_mem_left hF p hp
    exact ⟨hsz.1, hsz.2.1⟩
  have hcatlen : ∀ m ∈ (p0 :: rest).map catPair, m.length = b := by
    intro m hm
    simp only [List.mem_map] at hm
    obtain ⟨p, hp, rfl⟩ := hm
    exact catPair_length p b (hmemlen p hp).1 (hmemlen p hp).2
  have hcritIn : SelectiveAttentionCritic.criticIn ((p0 :: rest).map catPair) =
      some (cat1 ((p0 :: rest).map catPair)) := rfl
  have hp0len : (catPair p0).length = b :=
    catPair_length p0 b (hmemlen p0 (List.mem_cons_self p0 rest)).1
      (hmemlen p0 (List.mem_cons_self p0 rest)).2
  have hrowform : cat1 ((p0 :: rest).map catPair) = (List.range b).map (fun r =>
      ((p0 :: rest).map (fun p => p.1.getD r [] ++ p.2.getD r [])).flatten) := by
    show (List.range (catPair p0).length).map (fun r =>
        (((p0 :: rest).map catPair).map (fun mm => mm.getD r [])).flatten) = _
    rw [hp0len]
    refine List.map_congr_left ?_
    intro r hr
    have hrb : r < b := List.mem_range.mp hr
    rw [List.map_map]
    congr 1
    refine List.map_congr_left ?_
    intro p hp
    have hlens := hmemlen p hp
    show (catPair p).getD r [] = p.1.getD r [] ++ p.2.getD r []
    exact zipWith_append_getD p.1 p.2 r (by rw [hlens.1]; exact hrb)
      (by rw [hlens.2]; exact hrb)
  have hshape := cat1_shape ((p0 :: rest).map catPair)
    (sa_sizes.map (fun sz => sz.1 + sz.2)) b (by simp) hcatlen
    (forall₂_catPair (p0 :: rest) sa_sizes b hF)
  refine ⟨hcritIn, hrowform, hshape.1, ?_, ?_⟩
  · have hsum : (sa_sizes.map (fun sz => sz.1 + sz.2)).sum = npSumPairs sa_sizes := rfl
    show RowsW (cat1 ((p0 :: rest).map catPair)) (npSumPairs sa_sizes)
    rw [← hsum]
    exact hshape.2
  · intro a_i rq raq rg
    simp only [SelectiveAttentionCritic.agentCalc]
    rw [hcritIn, Option.some_bind]

/-- A closed instance of the C6 theorem on a concrete two-agent critic
with `sa_sizes=[(1,1),(1,2)]`: the joint input has width `5 = 1+1+1+2`. -/
theorem claim_c6_witness :
    SelectiveAttentionCritic.init W0 B0 [(1, 1), (1, 2)] [1] [1] 1 1 true = .ok sacNet6 ∧
    sacInps6 ≠ [] ∧
    List.Forall₂ (fun (p : Mat × Mat) (sz : ℕ × ℕ) =>
      p.1.length = 1 ∧ p.2.length = 1 ∧ RowsW p.1 sz.1 ∧ RowsW p.2 sz.2)
      sacInps6 [(1, 1), (1, 2)] ∧
    (SelectiveAttentionCritic.criticIn (sacInps6.map catPair) =
        some (cat1 (sacInps6.map catPair)) ∧
      cat1 (sacInps6.map catPair) = (List.range 1).map (fun r =>
        (sacInps6.map (fun p => p.1.getD r [] ++ p.2.getD r [])).flatten) ∧
      (cat1 (sacInps6.map catPair)).length = 1 ∧
      RowsW (cat1 (sacInps6.map catPair)) sacNet6.full_input_size ∧
      (∀ a_i rq raq rg, sacNet6.agentCalc oneFn (sacInps6.map catPair)
          (sacInps6.map Prod.snd) rq raq rg a_i =
        sacNet6.agentRest oneFn (cat1 (sacInps6.map catPair))
          (sacInps6.map Prod.snd) rq raq rg a_i)) := by
  have hr1 : RowsW [[(0 : ℚ)]] 1 := by
    intro r hr
    simp only [List.mem_singleton] at hr
    subst hr
    rfl
  have hr2 : RowsW [[(0 : ℚ), 0]] 2 := by
    intro r hr
    simp only [List.mem_singleton] at hr
    subst hr
    rfl
  have hF : List.Forall₂ (fun (p : Mat × Mat) (sz : ℕ × ℕ) =>
      p.1.length = 1 ∧ p.2.length = 1 ∧ RowsW p.1 sz.1 ∧ RowsW p.2 sz.2)
      sacInps6 [(1, 1), (1, 2)] :=
    List.Forall₂.cons ⟨rfl, rfl, hr1, hr1⟩
      (List.Forall₂.cons ⟨rfl, rfl, hr1, hr2⟩ List.Forall₂.nil)
  exact ⟨by with_unfolding_all rfl, by decide, hF,
    claim_c6_joint_critic_input oneFn W0 B0 [(1, 1), (1, 2)] [1] [1] 1 1 true sacNet6
      sacInps6 (sacInps6.map Prod.snd) 1 (by with_unfolding_all rfl) (by decide) hF⟩
